import Mathlib

/-!
# webref: references, their encoding and their resolution

A shallow embedding of the Go package `webref` (`webref.go`, `pem.go`,
`resolver.go`, `cipher.go`, `errors.go`) and theorems about it.

Conventions of the embedding:

* a Go pointer or slice field that may be `nil` is an `Option`;
* a Go function returning `(T, error)` returns `Outcome T`: a value, a returned
  error, or a run-time panic;
* Go `int` and `uint64` values are `Int` and `Nat`; where the width matters the
  range is stated or the wrap-around is written out;
* a Go `string` is a `String`, a sequence of Unicode characters: the embedding holds the
  Go strings that are valid UTF-8, and only those;
* a Go `map[string]string` is the list of its entries in strictly increasing key order;
* the standard library (`encoding/json`, `compress/gzip`, `encoding/pem`,
  `encoding/base64`, the hash and cipher packages) is not part of the package:
  its functions are fields of a structure the definitions take as an argument.
-/

namespace Webref

/-! ## Errors, panics, results -/

abbrev Bytes := List UInt8

/-- `SliceStage` of `webref.go`. -/
structure SliceStage where
  Begin : Int
  End : Int
deriving DecidableEq, Repr

/-- Error values. `msg` is an `errors.New` or `fmt.Errorf` of this package, the next three are
the error types of `errors.go`, `lib` is an error handed back by a library or a capability. -/
inductive Error where
  | msg (s : String)
  | AlgoUnsupported (Algo : String) (Typ : String)
  | SliceOOB (s : SliceStage)
  | EmptyStage
  | lib (s : String)
deriving DecidableEq, Repr

/-- Run-time panics. -/
inductive Panic where
  | indexOutOfRange (index : Nat) (length : Nat)
  | sliceBounds (low : Int) (high : Int)
  | nilDereference
  | explicit (what : String)
  | lib (what : String)
deriving DecidableEq, Repr

/-- Result of a Go call that returns `(T, error)` and may panic. -/
inductive Outcome (α : Type) where
  | ok (a : α)
  | err (e : Error)
  | panic (p : Panic)
deriving DecidableEq, Repr

/-! ## The data model (`webref.go`) -/

/-- `HTTPSource`. The `Headers` map is the list of its entries in strictly increasing key
order, `none` for a nil map. -/
structure HTTPSource where
  URL : String
  Headers : Option (List (String × String))
deriving DecidableEq, Repr

/-- `CipherStage`. -/
structure CipherStage where
  Algo : String
  Key : Bytes
  Nonce : Bytes
deriving DecidableEq, Repr

/-- `AEADStage`. -/
structure AEADStage where
  Algo : String
  Key : Bytes
  Nonce : Bytes
deriving DecidableEq, Repr

/-- `CompressStage`. -/
structure CompressStage where
  Algo : String
deriving DecidableEq, Repr

/-- `HashCheck`. -/
structure HashCheck where
  Algo : String
  Sum : Bytes
deriving DecidableEq, Repr

/-- `TableEntry`, over the type of its target. -/
structure TableEntryOf (R : Type) where
  Offset : Nat
  Target : R

/-- `Stage`: one optional field per variant. `Any` and `Table` are slices, `none` when nil. -/
structure Stage where
  File : Option String
  HTTP : Option HTTPSource
  IPFS : Option String
  Cipher : Option CipherStage
  AEAD : Option AEADStage
  Compress : Option CompressStage
  Slice : Option SliceStage
  Hash : Option HashCheck
  Any : Option (List (List Stage))
  Table : Option (List (TableEntryOf (List Stage)))

/-- `Ref`: a slice of stages. -/
abbrev Ref := List Stage

abbrev AnySource := List Ref

abbrev TableEntry := TableEntryOf Ref

abbrev TableSource := List TableEntry

/-- The zero value of `Stage`. -/
def Stage.zero : Stage :=
  ⟨none, none, none, none, none, none, none, none, none, none⟩

def Cipher_AES256_CTR : String := "AES256_CTR"
def Cipher_CHACHA20 : String := "CHACHA20"
def Cipher_XCHACHAX20 : String := "XCHACHA20"
def AEAD_AES256_GCM : String := "AES256_GCM"
def AEAD_XCHACHAPOLY1305 : String := "XCHACHAPOLY1305"
def GZIP : String := "gzip"
def SNAPPY : String := "snap"
def Hash_SHA256 : String := "SHA256"
def Hash_SHA3_256 : String := "SHA3_256"
def Hash_BLAKE2B : String := "BLAKE2B"
def Hash_BLAKE2S : String := "BLAKE2S"
def Hash_BLAKE3 : String := "BLAKE3"

/-- The source stages of the data model: a stage is one when one of `File`, `HTTP`, `IPFS`, `Any`, `Table` is populated. -/
def SourcePopulated (s : Stage) : Prop :=
  s.File ≠ none ∨ s.HTTP ≠ none ∨ s.IPFS ≠ none ∨ s.Any ≠ none ∨ s.Table ≠ none

/-- `Stage.IsSource`. -/
def Stage.IsSource (s : Stage) : Bool :=
  if s.File.isSome then true
  else if s.HTTP.isSome then true
  else if s.IPFS.isSome then true
  else if s.Any.isSome then true
  else if s.Table.isSome then true
  else false

/-- The loop `for i, s := range r[1:]` of `Ref.Validate`, at index `i` of `r[1:]`. -/
def Validate.tail : List Stage → Nat → Option Error
  | [], _ => none
  | s :: rest, i =>
    if s.IsSource then
      some (.msg ("webref: source found at index > 0: " ++ toString (i + 1)))
    else Validate.tail rest (i + 1)

/-- `Ref.Validate`; `none` is the nil error. -/
def Validate (r : Ref) : Option Error :=
  match r with
  | [] => some (.msg "zero-length ref")
  | s0 :: rest =>
    if !s0.IsSource then some (.msg "first ref element is not a Source")
    else Validate.tail rest 0

/-- The `for _, te := range s.Table` loop of `IsMutable` over the results of the calls
`te.Target.IsMutable()`, in order: the first `true` or panic ends it. -/
def IsMutable.table : List (Outcome Bool) → Outcome Bool
  | [] => .ok false
  | .ok true :: _ => .ok true
  | .ok false :: rest => IsMutable.table rest
  | .err e :: _ => .err e
  | .panic p :: _ => .panic p

/-- The loop of `Ref.IsMutable` from index `i` downwards: the bounds-checked read
`s := r[i]`, the switch, then `i--` and the test `i >= 0`. -/
def IsMutable.loop (r : Ref) (i : Nat) : Outcome Bool :=
  if h : i < r.length then
    let s := r[i]
    if s.File.isSome then .ok true
    else if s.HTTP.isSome then .ok true
    else if s.IPFS.isSome then .ok false
    else if s.Cipher.isSome || s.Slice.isSome then
      (if h0 : i = 0 then .ok false else IsMutable.loop r (i - 1))
    else if s.Hash.isSome then .ok false
    else if s.Any.isSome then .ok true
    else
      match ht : r[i].Table with
      | some t =>
        IsMutable.table (t.attach.map fun te =>
          IsMutable.loop te.1.Target te.1.Target.length)
      | none => .panic (.explicit "stage")
  else .panic (.indexOutOfRange i r.length)
termination_by (sizeOf r, i)
decreasing_by
  · exact Prod.Lex.right _ (by omega)
  · apply Prod.Lex.left
    have h1 : sizeOf t < sizeOf r[i] := by
      revert ht
      generalize r[i] = s
      intro ht
      cases s
      simp only at ht
      subst ht
      simp only [Stage.mk.sizeOf_spec, Option.some.sizeOf_spec]
      omega
    have h2 := List.sizeOf_lt_of_mem (List.getElem_mem h)
    obtain ⟨⟨o, tg⟩, hm⟩ := te
    have h3 := List.sizeOf_lt_of_mem hm
    simp only [TableEntryOf.mk.sizeOf_spec] at h3
    show sizeOf tg < sizeOf r
    omega

/-- `Ref.IsMutable`: the loop starts at `i := len(r)`. -/
def IsMutable (r : Ref) : Outcome Bool :=
  IsMutable.loop r r.length

/-! ## The wire format (`pem.go`) -/

/-- Syntax tree of a JSON text. Numbers are integer literals, the only ones an encoded Ref
holds. -/
inductive JSON where
  | null
  | bool (b : Bool)
  | num (n : Int)
  | str (s : String)
  | arr (xs : List JSON)
  | obj (kvs : List (String × JSON))

mutual
/-- How deep the arrays and objects of a tree nest: 0 for a scalar, 1 for `[]`. -/
def JSON.depth : JSON → Nat
  | .arr xs => JSON.depthOfList xs + 1
  | .obj kvs => JSON.depthOfFields kvs + 1
  | _ => 0
/-- The deepest of the elements of an array. -/
def JSON.depthOfList : List JSON → Nat
  | [] => 0
  | x :: rest => max (JSON.depth x) (JSON.depthOfList rest)
/-- The deepest of the values of an object. -/
def JSON.depthOfFields : List (String × JSON) → Nat
  | [] => 0
  | (_, v) :: rest => max (JSON.depth v) (JSON.depthOfFields rest)
end

/-- The limit of the scanner of `encoding/json` on the nesting of a text: past it the
decoder fails with "exceeded max depth"; a text nested less deep is within it. -/
def maxNestingDepth : Nat := 10000

/-- The library functions `EncodePEM` and `DecodePEM` call, over the type `T` of the units
of the wire text (bytes, for the Go library).

* `jsonWrite` is the text `json.Marshal` writes for a tree, `jsonRead` the tree
  `json.Unmarshal` scans from a text, or its syntax error;
* `base64Encode`, `base64Decode`: how `encoding/json` carries a `[]byte` in a string;
* `gzipWrite`: `gzip.NewWriterLevel(BestCompression)`, `Write`, `Close`;
  `gzipRead`: `gzip.NewReader` and `ioutil.ReadAll`;
* `pemEncode t b`: `pem.EncodeToMemory(&pem.Block{Type: t, Bytes: b})`;
  `pemDecode`: `pem.Decode`, the first block of the input, `none` for a nil block. -/
structure Lib (T : Type) where
  jsonWrite : JSON → List T
  jsonRead : List T → Except Error JSON
  base64Encode : Bytes → String
  base64Decode : String → Except Error Bytes
  gzipWrite : List T → List T
  gzipRead : List T → Except Error (List T)
  pemEncode : String → List T → List T
  pemDecode : List T → Option (String × List T)

/-- What the library documents: each decoder reads back what its encoder wrote. For
`encoding/json` this is so for a tree that nests less deep than `maxNestingDepth` and
whose strings are valid UTF-8, as every `String` is: the decoder rejects a text nested past
its limit, and `json.Marshal` writes U+FFFD for the bytes of a Go string that are not
valid UTF-8. -/
structure Lib.Lawful {T : Type} (lib : Lib T) : Prop where
  json : ∀ j, j.depth < maxNestingDepth → lib.jsonRead (lib.jsonWrite j) = .ok j
  base64 : ∀ b, lib.base64Decode (lib.base64Encode b) = .ok b
  gzip : ∀ w, lib.gzipRead (lib.gzipWrite w) = .ok w
  pem : ∀ w, lib.pemDecode (lib.pemEncode "WEBREF" w) = some ("WEBREF", w)

/-- A `[]byte` value in JSON: the base64 string of the bytes. `Bytes` has one value for
the nil slice and the empty one; Go writes `null` for the first and `""` for the second,
and `decBytes` reads `[]` from both. -/
def encBytes {T : Type} (lib : Lib T) (b : Bytes) : JSON :=
  .str (lib.base64Encode b)

/-- A `map[string]string` value in JSON: `null` for a nil map, else an object with the
keys in increasing order. -/
def encHeaders : Option (List (String × String)) → JSON
  | none => .null
  | some kvs => .obj (kvs.map fun kv => (kv.1, JSON.str kv.2))

/-- `HTTPSource` in JSON: tags `url` and `headers`. -/
def HTTPSource.toJSON (h : HTTPSource) : JSON :=
  .obj [("url", .str h.URL), ("headers", encHeaders h.Headers)]

/-- `CipherStage` in JSON: tags `algo`, `key`, `nonce`. -/
def CipherStage.toJSON {T : Type} (lib : Lib T) (c : CipherStage) : JSON :=
  .obj [("algo", .str c.Algo), ("key", encBytes lib c.Key), ("nonce", encBytes lib c.Nonce)]

/-- `AEADStage` in JSON: tags `algo`, `key`, `nonce`. -/
def AEADStage.toJSON {T : Type} (lib : Lib T) (c : AEADStage) : JSON :=
  .obj [("algo", .str c.Algo), ("key", encBytes lib c.Key), ("nonce", encBytes lib c.Nonce)]

/-- `CompressStage` in JSON: tag `algo`. -/
def CompressStage.toJSON (c : CompressStage) : JSON :=
  .obj [("algo", .str c.Algo)]

/-- `SliceStage` in JSON: tags `begin`, `end`. -/
def SliceStage.toJSON (c : SliceStage) : JSON :=
  .obj [("begin", .num c.Begin), ("end", .num c.End)]

/-- `HashCheck` in JSON: tags `algo`, `sum`. -/
def HashCheck.toJSON {T : Type} (lib : Lib T) (c : HashCheck) : JSON :=
  .obj [("algo", .str c.Algo), ("sum", encBytes lib c.Sum)]

/-- A field tagged `omitempty`: no entry for a nil pointer. -/
def omitEmpty {α : Type} (key : String) (enc : α → JSON) : Option α → List (String × JSON)
  | none => []
  | some a => [(key, enc a)]

/-- A pointer field without `omitempty`: `null` for a nil pointer. -/
def orNull {α : Type} (enc : α → JSON) : Option α → JSON
  | none => .null
  | some a => enc a

mutual
/-- What `json.Marshal` writes for a `Stage`, field by field in the order of the struct.
The tags of `AEAD` and `Compress` lack their closing quote, so `reflect` finds no `json`
key in them: both fields are written under their Go names and never omitted. `any` and
`table` are slices tagged `omitempty`: omitted when their length is 0. -/
def Stage.toJSON {T : Type} (lib : Lib T) : Stage → JSON
  | ⟨File, HTTP, IPFS, Cipher, AEAD, Compress, Slice, Hash, Any, Table⟩ =>
    .obj (omitEmpty "file" JSON.str File ++
      omitEmpty "http" HTTPSource.toJSON HTTP ++
      omitEmpty "ipfs" JSON.str IPFS ++
      omitEmpty "cipher" (CipherStage.toJSON lib) Cipher ++
      [("AEAD", orNull (AEADStage.toJSON lib) AEAD)] ++
      [("Compress", orNull CompressStage.toJSON Compress)] ++
      omitEmpty "slice" SliceStage.toJSON Slice ++
      omitEmpty "hash" (HashCheck.toJSON lib) Hash ++
      (match Any with
       | some (r :: rs) => [("any", JSON.arr (anyToJSON lib (r :: rs)))]
       | _ => []) ++
      (match Table with
       | some (e :: es) => [("table", JSON.arr (tableToJSON lib (e :: es)))]
       | _ => []))
/-- The elements of a `Ref`. -/
def stagesToJSON {T : Type} (lib : Lib T) : List Stage → List JSON
  | [] => []
  | s :: rest => Stage.toJSON lib s :: stagesToJSON lib rest
/-- The elements of an `AnySource`. -/
def anyToJSON {T : Type} (lib : Lib T) : List (List Stage) → List JSON
  | [] => []
  | r :: rest => JSON.arr (stagesToJSON lib r) :: anyToJSON lib rest
/-- The elements of a `TableSource`; `TableEntry` has no tags, its keys are the field
names. -/
def tableToJSON {T : Type} (lib : Lib T) : List (TableEntryOf (List Stage)) → List JSON
  | [] => []
  | ⟨off, target⟩ :: rest =>
    JSON.obj [("Offset", .num off), ("Target", .arr (stagesToJSON lib target))] ::
      tableToJSON lib rest
end

/-- What `json.Marshal` writes for a `Ref`. A nil Ref and an empty one are both the empty
list here; Go writes `null` for the first and `[]` for the second. -/
def Ref.toJSON {T : Type} (lib : Lib T) (r : Ref) : JSON :=
  .arr (stagesToJSON lib r)

/-- `json.Marshal(x)` for a `Ref`. -/
def Marshal {T : Type} (lib : Lib T) (x : Ref) : List T :=
  lib.jsonWrite (Ref.toJSON lib x)

/-- `EncodePEM` appends the canonical PEM encoding of the Ref x to out. -/
def EncodePEM {T : Type} (lib : Lib T) (out : List T) (x : Ref) : List T :=
  let data := Marshal lib x
  let data := lib.gzipWrite data
  out ++ lib.pemEncode "WEBREF" data

/-- The error of `encoding/json` for a value of the wrong kind. -/
def typeError (what : String) : Error :=
  .lib ("json: cannot unmarshal into Go value of type " ++ what)

/-- Simple case folding onto the ASCII letters: an upper-case letter goes to its lower
case, the Kelvin sign U+212A to `k`, the long s U+017F to `s`; no other character folds to
an ASCII one. -/
def foldRune (c : Char) : Char :=
  if c = Char.ofNat 0x212A then 'k'
  else if c = Char.ofNat 0x17F then 's'
  else c.toLower

/-- `strings.EqualFold name key`, the match of a JSON key with a field name under Unicode
simple case folding, for a name of ASCII characters, as the names of this package are. -/
def equalFold (name key : String) : Bool :=
  name.data.map foldRune == key.data.map foldRune

/-- The struct field a JSON key selects: the field of that exact name, else the first one
equal to it under case folding. -/
def fieldOf (names : List String) (key : String) : Option String :=
  match names.find? (fun n => n == key) with
  | some n => some n
  | none => names.find? (fun n => equalFold n key)

/-- Decoding into a `string`: `null` leaves the target as it is. -/
def decString (cur : String) : JSON → Except Error String
  | .null => .ok cur
  | .str s => .ok s
  | _ => .error (typeError "string")

/-- Decoding into a pointer to a string type (`*FileSource`, `*IPFSSource`). -/
def decStringPtr (_cur : Option String) : JSON → Except Error (Option String)
  | .null => .ok none
  | .str s => .ok (some s)
  | _ => .error (typeError "string")

/-- Decoding into an `int`. -/
def decInt (cur : Int) : JSON → Except Error Int
  | .null => .ok cur
  | .num n => if -(2 ^ 63) ≤ n ∧ n < 2 ^ 63 then .ok n else .error (typeError "int")
  | _ => .error (typeError "int")

/-- Decoding into a `uint64`. -/
def decUint64 (cur : Nat) : JSON → Except Error Nat
  | .null => .ok cur
  | .num n => if 0 ≤ n ∧ n < 2 ^ 64 then .ok n.toNat else .error (typeError "uint64")
  | _ => .error (typeError "uint64")

/-- Decoding one element of an array into a `byte`. -/
def decByte : JSON → Except Error UInt8
  | .null => .ok 0
  | .num n => if 0 ≤ n ∧ n < 256 then .ok n.toNat.toUInt8 else .error (typeError "uint8")
  | _ => .error (typeError "uint8")

/-- Decoding into a `[]byte`: a base64 string, or an array of numbers. -/
def decBytes {T : Type} (lib : Lib T) : JSON → Except Error Bytes
  | .null => .ok []
  | .str s => lib.base64Decode s
  | .arr xs => xs.mapM decByte
  | _ => .error (typeError "[]uint8")

/-- The order of Go strings on their characters; on valid UTF-8 it is the order on the
bytes, in which `json.Marshal` writes the keys of a map. -/
def runesLess : List Char → List Char → Bool
  | _, [] => false
  | [], _ :: _ => true
  | a :: as, b :: bs => decide (a.toNat < b.toNat) || (a.toNat == b.toNat && runesLess as bs)

/-- The Go comparison `a < b` of two strings. -/
def keyLess (a b : String) : Bool :=
  runesLess a.data b.data

/-- The assignment `m[k] = v` on the entries of a map: the value of a key already there is
replaced, a new key takes its place in the order. -/
def mapStore (k v : String) : List (String × String) → List (String × String)
  | [] => [(k, v)]
  | (k', v') :: rest =>
    if keyLess k k' then (k, v) :: (k', v') :: rest
    else if k = k' then (k, v) :: rest
    else (k', v') :: mapStore k v rest

/-- The entries of a JSON object stored into a `map[string]string` one after the other,
each value decoded into a fresh string. -/
def decHeaderEntries (cur : List (String × String)) :
    List (String × JSON) → Except Error (List (String × String))
  | [] => .ok cur
  | (k, v) :: rest =>
    match decString "" v with
    | .ok x => decHeaderEntries (mapStore k x cur) rest
    | .error e => .error e

/-- Decoding into a `map[string]string`: `null` sets the map to nil, the entries of an
object are stored into the target, a fresh map for a nil one. -/
def decHeaders (cur : Option (List (String × String))) :
    JSON → Except Error (Option (List (String × String)))
  | .null => .ok none
  | .obj kvs =>
    (match decHeaderEntries (cur.getD []) kvs with
     | .ok m => .ok (some m)
     | .error e => .error e)
  | _ => .error (typeError "map[string]string")

/-- Decoding a JSON object into a struct: each key sets the field it selects, a key that
selects none is skipped. -/
def decFields {α : Type} (names : List String) (set : String → JSON → α → Except Error α) :
    α → List (String × JSON) → Except Error α
  | cur, [] => .ok cur
  | cur, (k, v) :: rest =>
    match fieldOf names k with
    | some n =>
      (match set n v cur with
       | .ok c => decFields names set c rest
       | .error e => .error e)
    | none => decFields names set cur rest

/-- Decoding into a pointer to a struct: `null` sets it to nil, an object is decoded into
the struct it points to, a fresh one for a nil pointer. -/
def decPtr {α : Type} (zero : α) (what : String) (names : List String)
    (set : String → JSON → α → Except Error α) (cur : Option α) :
    JSON → Except Error (Option α)
  | .null => .ok none
  | .obj kvs =>
    (match decFields names set (cur.getD zero) kvs with
     | .ok a => .ok (some a)
     | .error e => .error e)
  | _ => .error (typeError what)

def HTTPSource.set (n : String) (v : JSON) (h : HTTPSource) : Except Error HTTPSource :=
  if n = "url" then (decString h.URL v).map fun x => { h with URL := x }
  else (decHeaders h.Headers v).map fun x => { h with Headers := x }

def CipherStage.set {T : Type} (lib : Lib T) (n : String) (v : JSON) (c : CipherStage) :
    Except Error CipherStage :=
  if n = "algo" then (decString c.Algo v).map fun x => { c with Algo := x }
  else if n = "key" then (decBytes lib v).map fun x => { c with Key := x }
  else (decBytes lib v).map fun x => { c with Nonce := x }

def AEADStage.set {T : Type} (lib : Lib T) (n : String) (v : JSON) (c : AEADStage) :
    Except Error AEADStage :=
  if n = "algo" then (decString c.Algo v).map fun x => { c with Algo := x }
  else if n = "key" then (decBytes lib v).map fun x => { c with Key := x }
  else (decBytes lib v).map fun x => { c with Nonce := x }

def CompressStage.set (_n : String) (v : JSON) (c : CompressStage) :
    Except Error CompressStage :=
  (decString c.Algo v).map fun x => { c with Algo := x }

def SliceStage.set (n : String) (v : JSON) (c : SliceStage) : Except Error SliceStage :=
  if n = "begin" then (decInt c.Begin v).map fun x => { c with Begin := x }
  else (decInt c.End v).map fun x => { c with End := x }

def HashCheck.set {T : Type} (lib : Lib T) (n : String) (v : JSON) (c : HashCheck) :
    Except Error HashCheck :=
  if n = "algo" then (decString c.Algo v).map fun x => { c with Algo := x }
  else (decBytes lib v).map fun x => { c with Sum := x }

/-- The JSON names of the fields of `Stage`, in struct order. -/
def stageFields : List String :=
  ["file", "http", "ipfs", "cipher", "AEAD", "Compress", "slice", "hash", "any", "table"]

mutual
/-- Decoding into a `Stage`. -/
def decodeStage {T : Type} (lib : Lib T) (cur : Stage) : JSON → Except Error Stage
  | .null => .ok cur
  | .obj kvs => decodeStageFields lib cur kvs
  | _ => .error (typeError "webref.Stage")
/-- The keys of an object decoded into a `Stage`, in order. -/
def decodeStageFields {T : Type} (lib : Lib T) (cur : Stage) :
    List (String × JSON) → Except Error Stage
  | [] => .ok cur
  | (k, v) :: rest =>
    match fieldOf stageFields k with
    | none => decodeStageFields lib cur rest
    | some n =>
      if n = "file" then
        (match decStringPtr cur.File v with
         | .ok x => decodeStageFields lib { cur with File := x } rest
         | .error e => .error e)
      else if n = "http" then
        (match decPtr ⟨"", none⟩ "webref.HTTPSource" ["url", "headers"] HTTPSource.set
            cur.HTTP v with
         | .ok x => decodeStageFields lib { cur with HTTP := x } rest
         | .error e => .error e)
      else if n = "ipfs" then
        (match decStringPtr cur.IPFS v with
         | .ok x => decodeStageFields lib { cur with IPFS := x } rest
         | .error e => .error e)
      else if n = "cipher" then
        (match decPtr ⟨"", [], []⟩ "webref.CipherStage" ["algo", "key", "nonce"]
            (CipherStage.set lib) cur.Cipher v with
         | .ok x => decodeStageFields lib { cur with Cipher := x } rest
         | .error e => .error e)
      else if n = "AEAD" then
        (match decPtr ⟨"", [], []⟩ "webref.AEADStage" ["algo", "key", "nonce"]
            (AEADStage.set lib) cur.AEAD v with
         | .ok x => decodeStageFields lib { cur with AEAD := x } rest
         | .error e => .error e)
      else if n = "Compress" then
        (match decPtr ⟨""⟩ "webref.CompressStage" ["algo"] CompressStage.set
            cur.Compress v with
         | .ok x => decodeStageFields lib { cur with Compress := x } rest
         | .error e => .error e)
      else if n = "slice" then
        (match decPtr ⟨0, 0⟩ "webref.SliceStage" ["begin", "end"] SliceStage.set
            cur.Slice v with
         | .ok x => decodeStageFields lib { cur with Slice := x } rest
         | .error e => .error e)
      else if n = "hash" then
        (match decPtr ⟨"", []⟩ "webref.HashCheck" ["algo", "sum"] (HashCheck.set lib)
            cur.Hash v with
         | .ok x => decodeStageFields lib { cur with Hash := x } rest
         | .error e => .error e)
      else if n = "any" then
        (match decodeAny lib v with
         | .ok x => decodeStageFields lib { cur with Any := x } rest
         | .error e => .error e)
      else
        (match decodeTable lib v with
         | .ok x => decodeStageFields lib { cur with Table := x } rest
         | .error e => .error e)
/-- Decoding into an `AnySource`: `null` is the nil slice. -/
def decodeAny {T : Type} (lib : Lib T) : JSON → Except Error (Option (List (List Stage)))
  | .null => .ok none
  | .arr xs =>
    (match decodeRefs lib xs with
     | .ok rs => .ok (some rs)
     | .error e => .error e)
  | _ => .error (typeError "webref.AnySource")
/-- The elements of an array decoded into an `AnySource`. -/
def decodeRefs {T : Type} (lib : Lib T) : List JSON → Except Error (List (List Stage))
  | [] => .ok []
  | j :: rest =>
    match decodeRef lib j with
    | .ok r =>
      (match decodeRefs lib rest with
       | .ok rs => .ok (r :: rs)
       | .error e => .error e)
    | .error e => .error e
/-- Decoding into a `Ref`. -/
def decodeRef {T : Type} (lib : Lib T) : JSON → Except Error (List Stage)
  | .null => .ok []
  | .arr xs => decodeStages lib xs
  | _ => .error (typeError "webref.Ref")
/-- The elements of an array decoded into a `Ref`, each into a fresh `Stage`. -/
def decodeStages {T : Type} (lib : Lib T) : List JSON → Except Error (List Stage)
  | [] => .ok []
  | j :: rest =>
    match decodeStage lib Stage.zero j with
    | .ok s =>
      (match decodeStages lib rest with
       | .ok ss => .ok (s :: ss)
       | .error e => .error e)
    | .error e => .error e
/-- Decoding into a `TableSource`: `null` is the nil slice. -/
def decodeTable {T : Type} (lib : Lib T) :
    JSON → Except Error (Option (List (TableEntryOf (List Stage))))
  | .null => .ok none
  | .arr xs =>
    (match decodeEntries lib xs with
     | .ok es => .ok (some es)
     | .error e => .error e)
  | _ => .error (typeError "webref.TableSource")
/-- The elements of an array decoded into a `TableSource`. -/
def decodeEntries {T : Type} (lib : Lib T) :
    List JSON → Except Error (List (TableEntryOf (List Stage)))
  | [] => .ok []
  | j :: rest =>
    match decodeEntry lib ⟨0, []⟩ j with
    | .ok te =>
      (match decodeEntries lib rest with
       | .ok es => .ok (te :: es)
       | .error e => .error e)
    | .error e => .error e
/-- Decoding into a `TableEntry`. -/
def decodeEntry {T : Type} (lib : Lib T) (cur : TableEntryOf (List Stage)) :
    JSON → Except Error (TableEntryOf (List Stage))
  | .null => .ok cur
  | .obj kvs => decodeEntryFields lib cur kvs
  | _ => .error (typeError "webref.TableEntry")
/-- The keys of an object decoded into a `TableEntry`, in order. -/
def decodeEntryFields {T : Type} (lib : Lib T) (cur : TableEntryOf (List Stage)) :
    List (String × JSON) → Except Error (TableEntryOf (List Stage))
  | [] => .ok cur
  | (k, v) :: rest =>
    match fieldOf ["Offset", "Target"] k with
    | none => decodeEntryFields lib cur rest
    | some n =>
      if n = "Offset" then
        (match decUint64 cur.Offset v with
         | .ok x => decodeEntryFields lib { cur with Offset := x } rest
         | .error e => .error e)
      else
        (match decodeRef lib v with
         | .ok x => decodeEntryFields lib { cur with Target := x } rest
         | .error e => .error e)
end

/-- `json.Unmarshal(data, &r)` for `var r Ref`. -/
def Unmarshal {T : Type} (lib : Lib T) (data : List T) : Except Error Ref :=
  match lib.jsonRead data with
  | .ok j => decodeRef lib j
  | .error e => .error e

/-- `DecodePEM` decodes a Ref from its canonical PEM encoding in x. `block.Type` is read
without a nil check on `block`. -/
def DecodePEM {T : Type} (lib : Lib T) (x : List T) : Outcome Ref :=
  match lib.pemDecode x with
  | none => .panic .nilDereference
  | some (type, bytes) =>
    if type != "WEBREF" then
      .err (.msg ("webref: decoding pem, wrong type " ++ type.quote))
    else
      match lib.gzipRead bytes with
      | .error e => .err e
      | .ok data =>
        match Unmarshal lib data with
        | .error e => .err e
        | .ok r =>
          match Validate r with
          | some e => .err e
          | none => .ok r

/-! ## Round-trip conditions and a reference library -/

/-- An `int` of the 64-bit platforms the package is built for. -/
def fitsInt (n : Int) : Bool :=
  decide (-(2 ^ 63) ≤ n ∧ n < 2 ^ 63)

/-- A `uint64`. -/
def fitsUint64 (n : Nat) : Bool :=
  decide (n < 2 ^ 64)

mutual
/-- Every `int` and `uint64` of the stage, at any depth, is in the range of its Go type. -/
def Stage.inRange : Stage → Bool
  | ⟨_, _, _, _, _, _, Slice, _, Any, Table⟩ =>
    (match Slice with
     | none => true
     | some c => fitsInt c.Begin && fitsInt c.End) &&
    (match Any with
     | none => true
     | some rs => anyInRange rs) &&
    (match Table with
     | none => true
     | some es => tableInRange es)
def stagesInRange : List Stage → Bool
  | [] => true
  | s :: rest => Stage.inRange s && stagesInRange rest
def anyInRange : List (List Stage) → Bool
  | [] => true
  | r :: rest => stagesInRange r && anyInRange rest
def tableInRange : List (TableEntryOf (List Stage)) → Bool
  | [] => true
  | ⟨off, target⟩ :: rest => fitsUint64 off && stagesInRange target && tableInRange rest
end

/-- The entries of a map are in strictly increasing key order, as the embedding keeps
them. -/
def keysAscending (kvs : List (String × String)) : Bool :=
  decide ((kvs.map Prod.fst).Pairwise fun a b => keyLess a b = true)

/-- The `Headers` map of an `HTTPSource` is nil or in key order. -/
def HTTPSource.inOrder (h : HTTPSource) : Bool :=
  match h.Headers with
  | none => true
  | some kvs => keysAscending kvs

mutual
/-- Every `Headers` map of the stage, at any depth, is in key order. -/
def Stage.mapsInOrder : Stage → Bool
  | ⟨_, HTTP, _, _, _, _, _, _, Any, Table⟩ =>
    (match HTTP with
     | none => true
     | some h => h.inOrder) &&
    (match Any with
     | none => true
     | some rs => anyMapsInOrder rs) &&
    (match Table with
     | none => true
     | some es => tableMapsInOrder es)
def stagesMapsInOrder : List Stage → Bool
  | [] => true
  | s :: rest => Stage.mapsInOrder s && stagesMapsInOrder rest
def anyMapsInOrder : List (List Stage) → Bool
  | [] => true
  | r :: rest => stagesMapsInOrder r && anyMapsInOrder rest
def tableMapsInOrder : List (TableEntryOf (List Stage)) → Bool
  | [] => true
  | ⟨_, target⟩ :: rest => stagesMapsInOrder target && tableMapsInOrder rest
end

mutual
/-- No `Any` and no `Table` of the stage, at any depth, is a non-nil slice of length 0. -/
def Stage.noEmptyList : Stage → Bool
  | ⟨_, _, _, _, _, _, _, _, Any, Table⟩ =>
    (match Any with
     | none => true
     | some [] => false
     | some (r :: rs) => anyNoEmptyList (r :: rs)) &&
    (match Table with
     | none => true
     | some [] => false
     | some (e :: es) => tableNoEmptyList (e :: es))
def stagesNoEmptyList : List Stage → Bool
  | [] => true
  | s :: rest => Stage.noEmptyList s && stagesNoEmptyList rest
def anyNoEmptyList : List (List Stage) → Bool
  | [] => true
  | r :: rest => stagesNoEmptyList r && anyNoEmptyList rest
def tableNoEmptyList : List (TableEntryOf (List Stage)) → Bool
  | [] => true
  | ⟨_, target⟩ :: rest => stagesNoEmptyList target && tableNoEmptyList rest
end

/-- Wire units of the reference library: the output of each encoder, kept as a term. -/
inductive Sym where
  | json (j : JSON)
  | gzip (w : List Sym)
  | pem (type : String) (w : List Sym)

/-- `pem.Decode` of the reference library: the first block of the input. -/
def Sym.firstBlock : List Sym → Option (String × List Sym)
  | [] => none
  | .pem t w :: _ => some (t, w)
  | _ :: rest => Sym.firstBlock rest

/-- A reference library: every encoder keeps its argument, every decoder takes it out
again. It shows that `Lib.Lawful` has an instance, and lets the definitions be evaluated. -/
def refLib : Lib Sym where
  jsonWrite j := [.json j]
  jsonRead w :=
    match w with
    | [.json j] => .ok j
    | _ => .error (.lib "invalid character")
  base64Encode b := String.mk (b.map fun x => Char.ofNat x.toNat)
  base64Decode s := .ok (s.data.map fun c => c.toNat.toUInt8)
  gzipWrite w := [.gzip w]
  gzipRead w :=
    match w with
    | [.gzip v] => .ok v
    | _ => .error (.lib "gzip: invalid header")
  pemEncode t w := [.pem t w]
  pemDecode := Sym.firstBlock

/-! ## Streams

The byte streams `Resolve` threads through the stages. The resources a capability opens
(files, HTTP bodies) live in a `World`, so that what a failed or finished resolution leaves
open can be read off it. -/

/-- An open resource: a file handed out by `openFile` or the body of an HTTP response.
`seeker` tells whether its Go type implements `io.Seeker` (a file does, a body does not). -/
structure Handle where
  data : Bytes
  pos : Nat
  closed : Bool
  seeker : Bool
deriving DecidableEq, Repr

/-- The resources opened so far; a resource is named by its index. -/
abbrev World := List Handle

mutual
/-- The `io.Reader` held by a `closer`: `cipher.StreamReader{S, R}` (`S` maps the bytes read
from `R`; `R` may be a nil interface), or `io.LimitReader(rsc, N)` over the resource `rsc`. -/
inductive Reader where
  | stream (S : Bytes → Bytes) (R : Option Stream)
  | limit (rsc : Nat) (N : Int)
/-- An `io.ReadCloser` value: a resource of the world, `io.NopCloser(bytes.NewReader(data))`,
or a `closer{Reader, close}` of `resolver.go`, whose `close` is the bound method `x.Close` of
the stream `x`, `none` for a nil func. -/
inductive Stream where
  | handle (id : Nat)
  | nopCloser (data : Bytes)
  | closer (Reader : Reader) (close : Option Stream)
end

/-- Reading resource `id` to its end or, with a limit, until `n` bytes are read. -/
def readHandle (id : Nat) (n : Option Nat) (w : World) : Outcome Bytes × World :=
  match w[id]? with
  | none => (.err (.lib "invalid resource"), w)
  | some h =>
    if h.closed then (.err (.lib "read of closed resource"), w)
    else
      let rest := h.data.drop h.pos
      let got :=
        match n with
        | none => rest
        | some k => rest.take k
      (.ok got, w.set id { h with pos := h.pos + got.length })

/-- `Seek(offset, io.SeekCurrent)` on resource `id`: a negative resulting position is an
error, one past the end is not. -/
def seekHandle (id : Nat) (offset : Int) (w : World) : Option Error × World :=
  match w[id]? with
  | none => (some (.lib "invalid resource"), w)
  | some h =>
    if h.closed then (some (.lib "seek of closed resource"), w)
    else if (h.pos : Int) + offset < 0 then (some (.lib "seek: negative position"), w)
    else (none, w.set id { h with pos := ((h.pos : Int) + offset).toNat })

/-- `Close()` on resource `id`. -/
def closeHandle (id : Nat) (w : World) : Outcome Unit × World :=
  match w[id]? with
  | none => (.err (.lib "invalid resource"), w)
  | some h =>
    if h.closed then (.err (.lib "resource already closed"), w)
    else (.ok (), w.set id { h with closed := true })

mutual
/-- `ioutil.ReadAll(x)` on a non-nil stream: all the bytes it yields until EOF. -/
def Stream.readAll : Stream → World → Outcome Bytes × World
  | .handle id, w => readHandle id none w
  | .nopCloser data, w => (.ok data, w)
  | .closer rd _, w => Reader.readAll rd w
/-- Reading a `closer`'s reader until EOF. A `StreamReader` over a nil `R` panics on its
first `Read`; a `LimitReader` with `N <= 0` reports EOF without reading. -/
def Reader.readAll : Reader → World → Outcome Bytes × World
  | .stream _ none, w => (.panic .nilDereference, w)
  | .stream S (some R), w =>
    match Stream.readAll R w with
    | (.ok b, w1) => (.ok (S b), w1)
    | (.err e, w1) => (.err e, w1)
    | (.panic p, w1) => (.panic p, w1)
  | .limit rsc N, w =>
    if N ≤ 0 then (.ok [], w) else readHandle rsc (some N.toNat) w
end

/-- `x.Close()` on a non-nil stream. Calling the nil `close` of a `closer` panics. -/
def Stream.close : Stream → World → Outcome Unit × World
  | .handle id, w => closeHandle id w
  | .nopCloser _, w => (.ok (), w)
  | .closer _ none, w => (.panic .nilDereference, w)
  | .closer _ (some x), w => Stream.close x w

/-- The type assertion `x.(io.ReadSeekCloser)`: the resource behind `x` when `x` is one that
implements `io.Seeker`. -/
def asReadSeekCloser (x : Option Stream) (w : World) : Option Nat :=
  match x with
  | some (.handle id) =>
    (match w[id]? with
     | some h => if h.seeker then some id else none
     | none => none)
  | _ => none

/-! ## The resolver (`resolver.go`, `cipher.go`) -/

/-- A `hash.Hash` as `resolveHash` uses it: the error of `Write(data)`, and the digest
`Sum(nil)` after `data` was written. -/
structure Hash where
  Write : Bytes → Option Error
  Sum : Bytes → Bytes

/-- A `cipher.AEAD`: `Open(dst, nonce, ciphertext, additionalData)`. -/
structure AEAD where
  Open : Bytes → Bytes → Bytes → Bytes → Outcome Bytes

/-- `Decryptor` of `cipher.go`: `func(x io.ReadCloser, key, nonce []byte)`. -/
abbrev Decryptor := Option Stream → Bytes → Bytes → World → Outcome Stream × World

/-- `Decompressor` of `compress.go`: `func(x io.ReadCloser)`. -/
abbrev Decompressor := Option Stream → World → Outcome Stream × World

/-- `Resolver`. A Go map is a function to `Option`; `hc` is what `hc.Get(url)` returns, the
body of the response; `openFile` returns the content of the file it opens, at its start. -/
structure Resolver where
  hc : String → Except Error Bytes
  openFile : String → Except Error Bytes
  hashers : String → Option Hash
  decryptors : String → Option Decryptor
  aeads : String → Option (Bytes → Except Error AEAD)
  decompressors : String → Option Decompressor

/-- `Option` of `resolver.go`: `func(*Resolver)`. -/
abbrev ResolverOption := Resolver → Resolver

/-- The map assignment `m[k] = v`. -/
def mapSet {α : Type} (m : String → Option α) (k : String) (v : α) : String → Option α :=
  fun a => if a = k then some v else m a

def WithOpenFile (fn : String → Except Error Bytes) : ResolverOption :=
  fun r => { r with openFile := fn }

def WithHTTPClient (hc : String → Except Error Bytes) : ResolverOption :=
  fun r => { r with hc := hc }

def WithHash (algo : String) (fn : Hash) : ResolverOption :=
  fun r => { r with hashers := mapSet r.hashers algo fn }

def WithCipher (algo : String) (fn : Decryptor) : ResolverOption :=
  fun r => { r with decryptors := mapSet r.decryptors algo fn }

def WithCompression (algo : String) (fn : Decompressor) : ResolverOption :=
  fun r => { r with decompressors := mapSet r.decompressors algo fn }

/-- The packages the resolver is built on: `http.DefaultClient`, the three default hashes,
`chacha20.NewUnauthenticatedCipher(key, nonce)`, `aes.NewCipher(key)` followed by
`cipher.NewCTR(block, iv)`, which panics when the IV has not the block size. A key stream
is the map it applies to the bytes read through it. -/
structure Env where
  DefaultClient : String → Except Error Bytes
  sha256 : Hash
  blake2b : Hash
  blake3 : Hash
  chacha20 : Bytes → Bytes → Except Error (Bytes → Bytes)
  aesCTR : Bytes → Except Error (Bytes → Outcome (Bytes → Bytes))

/-- `ChaCha20Decrypt`. The method value `x.Close` is taken when the `closer` is built: on a
nil `x` that panics. -/
def ChaCha20Decrypt (env : Env) : Decryptor := fun x key nonce w =>
  match env.chacha20 key nonce with
  | .error e => (.err e, w)
  | .ok ciph =>
    match x with
    | none => (.panic .nilDereference, w)
    | some s => (.ok (.closer (.stream ciph (some s)) (some s)), w)

/-- `AES256CTRDecrypt`. The `closer` it returns has no `close`. -/
def AES256CTRDecrypt (env : Env) : Decryptor := fun x key nonce w =>
  match env.aesCTR key with
  | .error e => (.err e, w)
  | .ok newCTR =>
    match newCTR nonce with
    | .ok S => (.ok (.closer (.stream S x) none), w)
    | .err e => (.err e, w)
    | .panic p => (.panic p, w)

/-- `NewResolver(opts ...Option)`: the literal it builds is returned as it is; `opts` is not
used. -/
def NewResolver (env : Env) (_opts : List ResolverOption) : Resolver where
  hc := env.DefaultClient
  openFile := fun _ => .error (.msg "webref: resolver does not have file opener configured")
  decryptors := fun a =>
    if a = Cipher_CHACHA20 then some (ChaCha20Decrypt env)
    else if a = Cipher_XCHACHAX20 then some (ChaCha20Decrypt env)
    else if a = Cipher_AES256_CTR then some (AES256CTRDecrypt env)
    else none
  hashers := fun a =>
    if a = Hash_SHA256 then some env.sha256
    else if a = Hash_BLAKE2B then some env.blake2b
    else if a = Hash_BLAKE3 then some env.blake3
    else none
  aeads := fun _ => none
  decompressors := fun _ => none

/-- `Resolver.readAll`: `ioutil.ReadAll(x)`, then `x.Close()`. -/
def readAll (x : Option Stream) (w : World) : Outcome Bytes × World :=
  match x with
  | none => (.panic .nilDereference, w)
  | some s =>
    match s.readAll w with
    | (.ok data, w1) =>
      (match s.close w1 with
       | (.ok _, w2) => (.ok data, w2)
       | (.err e, w2) => (.err e, w2)
       | (.panic p, w2) => (.panic p, w2))
    | (.err e, w1) => (.err e, w1)
    | (.panic p, w1) => (.panic p, w1)

/-- `Resolver.resolveCipher`. -/
def resolveCipher (r : Resolver) (x : Option Stream) (c : CipherStage) (w : World) :
    Outcome Stream × World :=
  match r.decryptors c.Algo with
  | none => (.err (.AlgoUnsupported c.Algo "cipher"), w)
  | some dec => dec x c.Key c.Nonce w

/-- `Resolver.resolveAEAD`. -/
def resolveAEAD (r : Resolver) (x : Option Stream) (c : AEADStage) (w : World) :
    Outcome Stream × World :=
  match r.aeads c.Algo with
  | none => (.err (.AlgoUnsupported c.Algo "AEAD"), w)
  | some newAEAD =>
    match newAEAD c.Key with
    | .error e => (.err e, w)
    | .ok a =>
      match readAll x w with
      | (.err e, w1) => (.err e, w1)
      | (.panic p, w1) => (.panic p, w1)
      | (.ok data, w1) =>
        match a.Open data c.Nonce data [] with
        | .err e => (.err e, w1)
        | .panic p => (.panic p, w1)
        | .ok data => (.ok (.nopCloser data), w1)

/-- `Resolver.resolveHash`: the data is written to the hash; `c.Sum` is not read. -/
def resolveHash (r : Resolver) (x : Option Stream) (c : HashCheck) (w : World) :
    Outcome Stream × World :=
  match r.hashers c.Algo with
  | none => (.err (.AlgoUnsupported c.Algo "hash"), w)
  | some newHash =>
    match readAll x w with
    | (.err e, w1) => (.err e, w1)
    | (.panic p, w1) => (.panic p, w1)
    | (.ok data, w1) =>
      match newHash.Write data with
      | some e => (.err e, w1)
      | none => (.ok (.nopCloser data), w1)

/-- The conversion `int64(v)` of an `int` expression: wrap-around at 64 bits. -/
def wrapInt64 (v : Int) : Int :=
  (v + 2 ^ 63) % 2 ^ 64 - 2 ^ 63

/-- The slice expression `data[low:high]` once its bounds are checked. -/
def sliceOf (data : Bytes) (low high : Int) : Bytes :=
  (data.drop low.toNat).take (high.toNat - low.toNat)

/-- `Resolver.resolveSlice`. -/
def resolveSlice (_r : Resolver) (x : Option Stream) (c : SliceStage) (w : World) : Outcome Stream × World :=
  if c.End < c.Begin then
    (.err (.msg ("webref: slice end < begin. " ++ toString c.End ++ " < " ++
      toString c.Begin)), w)
  else
    match asReadSeekCloser x w with
    | some rsc =>
      (match seekHandle rsc c.Begin w with
       | (some e, w1) => (.err e, w1)
       | (none, w1) =>
         (.ok (.closer (.limit rsc (wrapInt64 (c.End - c.Begin))) (some (.handle rsc))), w1))
    | none =>
      match readAll x w with
      | (.err e, w1) => (.err e, w1)
      | (.panic p, w1) => (.panic p, w1)
      | (.ok data, w1) =>
        if (data.length : Int) < c.End then
          (.err (.msg "webref: slice is out of bounds"), w1)
        else if c.Begin < 0 then (.panic (.sliceBounds c.Begin c.End), w1)
        else (.ok (.nopCloser (sliceOf data c.Begin c.End)), w1)

/-- `Resolver.resolveCompress`. The error names the type "hash". -/
def resolveCompress (r : Resolver) (x : Option Stream) (cs : CompressStage) (w : World) :
    Outcome Stream × World :=
  match r.decompressors cs.Algo with
  | none => (.err (.AlgoUnsupported cs.Algo "hash"), w)
  | some dec => dec x w

/-- A capability hands out a resource: it joins the world, open and at its start. -/
def openHandle (data : Bytes) (seeker : Bool) (w : World) : Stream × World :=
  (.handle w.length, w ++ [⟨data, 0, false, seeker⟩])

/-- The closure `setSource` of `Resolve`, returning the new value of `rc`: with a stream
already set, that stream is closed (the result of `Close` is dropped) and the error is
returned. -/
def setSource (rc : Option Stream) (rc2 : Stream) (w : World) :
    Outcome (Option Stream) × World :=
  match rc with
  | some s =>
    (match s.close w with
     | (.panic p, w1) => (.panic p, w1)
     | (_, w1) => (.err (.msg "source found after first stage"), w1))
  | none => (.ok (some rc2), w)

/-- A transform stage of `Resolve`: on success its stream becomes `rc`. -/
def stepResult (o : Outcome Stream × World) : Outcome (Option Stream) × World :=
  match o with
  | (.ok rc2, w) => (.ok (some rc2), w)
  | (.err e, w) => (.err e, w)
  | (.panic p, w) => (.panic p, w)

/-- The switch of the loop of `Resolve` on one stage, with `rc` the stream so far: the new
value of `rc`, or the error or panic that ends the call. -/
def Resolve.stage (r : Resolver) (s : Stage) (rc : Option Stream) (w : World) :
    Outcome (Option Stream) × World :=
  match s.File, s.HTTP, s.IPFS with
  | some f, _, _ =>
    (match r.openFile f with
     | .error e => (.err e, w)
     | .ok data => setSource rc (openHandle data true w).1 (openHandle data true w).2)
  | none, some h, _ =>
    (match r.hc h.URL with
     | .error e => (.err e, w)
     | .ok body => setSource rc (openHandle body false w).1 (openHandle body false w).2)
  | none, none, some _ => (.panic (.explicit "s.IPFS"), w)
  | none, none, none =>
    match s.Cipher, s.AEAD, s.Hash, s.Compress, s.Slice with
    | some c, _, _, _, _ => stepResult (resolveCipher r rc c w)
    | none, some c, _, _, _ => stepResult (resolveAEAD r rc c w)
    | none, none, some c, _, _ => stepResult (resolveHash r rc c w)
    | none, none, none, some c, _ => stepResult (resolveCompress r rc c w)
    | none, none, none, none, some c => stepResult (resolveSlice r rc c w)
    | none, none, none, none, none =>
      match s.Any, s.Table with
      | some _, _ => (.panic (.explicit "s.Any"), w)
      | none, some _ => (.panic (.explicit "s.Table"), w)
      | none, none => (.err .EmptyStage, w)

/-- The loop `for _, s := range x` of `Resolve`. -/
def Resolve.loop (r : Resolver) : List Stage → Option Stream → World →
    Outcome (Option Stream) × World
  | [], rc, w => (.ok rc, w)
  | s :: rest, rc, w =>
    match Resolve.stage r s rc w with
    | (.ok rc1, w1) => Resolve.loop r rest rc1 w1
    | (.err e, w1) => (.err e, w1)
    | (.panic p, w1) => (.panic p, w1)

/-- `Resolver.Resolve`: the stream returned (`ok none` would be a nil stream with a nil
error), an error, or a panic, and the world it leaves. -/
def Resolve (r : Resolver) (x : Ref) (w : World) : Outcome (Option Stream) × World :=
  if x.length = 0 then (.err (.msg "empty ref"), w)
  else Resolve.loop r x none w

/-- The loop of `resolveAny` over the indices `i` still to try, with `retErr` so far. -/
def resolveAny.loop (r : Resolver) (x : List Ref) (n : Nat) :
    List Nat → Option Error → World → Outcome (Option Stream) × World
  | [], retErr, w =>
    (match retErr with
     | some e => (.err e, w)
     | none => (.ok none, w))
  | i :: rest, _, w =>
    match x[(i + n) % x.length]? with
    | none => (.panic (.indexOutOfRange ((i + n) % x.length) x.length), w)
    | some ref =>
      match Resolve r ref w with
      | (.err e, w1) => resolveAny.loop r x n rest (some e) w1
      | (.ok rc, w1) => (.ok rc, w1)
      | (.panic p, w1) => (.panic p, w1)

/-- `Resolver.resolveAny`, with `n` the value drawn by `rand.Intn(len(x))`. -/
def resolveAny (r : Resolver) (x : List Ref) (n : Nat) (w : World) :
    Outcome (Option Stream) × World :=
  if x.length = 0 then (.err (.msg "empty any"), w)
  else resolveAny.loop r x n (List.range x.length) none w

/-! ## A reference environment -/

/-- A toy hash: `Write` never fails, the digest is the one-byte sum of the data. -/
def refHash : Hash :=
  ⟨fun _ => none, fun b => [b.foldl (fun a x => a + x) 0]⟩

/-- A toy key stream: every byte is xored with 42. -/
def refKeyStream : Bytes → Bytes :=
  fun b => b.map fun x => x ^^^ 42

/-- A reference environment, to evaluate the resolver: every URL serves the four bytes
"abcd"; the constructors check the lengths of key and nonce as the Go packages do. -/
def refEnv : Env where
  DefaultClient := fun _ => .ok [97, 98, 99, 100]
  sha256 := refHash
  blake2b := refHash
  blake3 := refHash
  chacha20 := fun key nonce =>
    if key.length = 32 ∧ (nonce.length = 12 ∨ nonce.length = 24) then .ok refKeyStream
    else .error (.lib "chacha20: wrong key or nonce size")
  aesCTR := fun key =>
    if key.length = 16 ∨ key.length = 24 ∨ key.length = 32 then
      .ok fun iv =>
        if iv.length = 16 then .ok refKeyStream
        else .panic (.lib "cipher.NewCTR: IV length must equal block size")
    else .error (.lib "crypto/aes: invalid key size")

/-- The resolver `NewResolver()` after `WithOpenFile` was applied to it, with an opener that
serves the three bytes 1, 2, 3 under every name. -/
def fileResolver : Resolver :=
  WithOpenFile (fun _ => .ok [1, 2, 3]) (NewResolver refEnv [])

/-- A decompressor to register: it hands its input stream on. -/
def passDecompressor : Decompressor := fun x w =>
  match x with
  | some s => (.ok s, w)
  | none => (.err (.lib "no input"), w)

/-! ## Example references -/

/-- A Ref builder: the stage with only `File` populated. -/
def Stage.ofFile (p : String) : Stage := { Stage.zero with File := some p }

/-- The stage with only `HTTP` populated. -/
def Stage.ofHTTP (url : String) : Stage := { Stage.zero with HTTP := some ⟨url, none⟩ }

/-- The stage with only `Hash` populated. -/
def Stage.ofHash (algo : String) (sum : Bytes) : Stage :=
  { Stage.zero with Hash := some ⟨algo, sum⟩ }

/-- The stage with only `Slice` populated. -/
def Stage.ofSlice (b e : Int) : Stage := { Stage.zero with Slice := some ⟨b, e⟩ }

/-- The stage with only `Any` populated. -/
def Stage.ofAny (alts : List Ref) : Stage := { Stage.zero with Any := some alts }

/-- The Ref `[Stage{Any: AnySource{}}]`: one stage whose `Any` is a non-nil slice of length 0. -/
def refEmptyAny : Ref := [Stage.ofAny []]

/-- The Ref of `TestEncodeDecode`: an HTTP source and a BLAKE2B hash of 32 zero bytes. -/
def refTest : Ref :=
  [Stage.ofHTTP "https://example.com/1234", Stage.ofHash Hash_BLAKE2B (List.replicate 32 0)]

/-- The Ref `[HTTP, Hash]` of the mutability examples. -/
def refHTTPHash : Ref :=
  [Stage.ofHTTP "https://example.com/1234", Stage.ofHash Hash_SHA256 []]

/-- The Ref `[File, Slice(0,10)]` of the mutability examples. -/
def refFileSlice : Ref :=
  [Stage.ofFile "a.txt", Stage.ofSlice 0 10]

/-- The stage with only `Cipher` populated. -/
def Stage.ofCipher (algo : String) (key nonce : Bytes) : Stage :=
  { Stage.zero with Cipher := some ⟨algo, key, nonce⟩ }

/-- The stage with only `IPFS` populated. -/
def Stage.ofIPFS (id : String) : Stage := { Stage.zero with IPFS := some id }

/-- A key of 32 zero bytes. -/
def zeroKey : Bytes := List.replicate 32 0

/-- An IV of 16 zero bytes, the AES block size. -/
def zeroIV : Bytes := List.replicate 16 0

/-- A ChaCha20 nonce of 12 zero bytes. -/
def zeroNonce : Bytes := List.replicate 12 0

/-- The body every URL of the reference environment serves: "abcd". -/
def abcd : Bytes := [97, 98, 99, 100]

/-- A Ref with a header map, alternatives, a table and a negative slice bound: the first
stage holds an HTTP source with two headers, an `Any` of two Refs, the second one empty, and
a `Table` of one entry; the second stage is a cipher. -/
def refNested : Ref :=
  [{ Stage.zero with
      HTTP := some ⟨"https://example.com/1234",
        some [("Accept", "text/plain"), ("Range", "bytes=0-9")]⟩
      Any := some [[Stage.ofFile "a.txt", Stage.ofSlice (-1) 10], []]
      Table := some [⟨7, [Stage.ofIPFS "Qm"]⟩] },
    Stage.ofCipher Cipher_CHACHA20 zeroKey zeroNonce]

/-! ## Predicates on resolutions -/

/-- Trying a list of alternatives in turn, from the world `w`, with every one failing:
each `Resolve` returns an error and hands its world to the next; `w1` is the world after
the last. -/
def FailInTurn (r : Resolver) : List Ref → World → World → Prop
  | [], w, w1 => w1 = w
  | a :: rest, w, w1 => ∃ e wm, Resolve r a w = (.err e, wm) ∧ FailInTurn r rest wm w1

/-- Trying a list of alternatives in the order of the list: the stream of the first one
that resolves, else the error of the last one (`last` before any was tried). -/
def firstSuccess (r : Resolver) :
    List Ref → Option Error → World → Outcome (Option Stream) × World
  | [], last, w =>
    (match last with
     | some e => (.err e, w)
     | none => (.ok none, w))
  | a :: rest, _, w =>
    match Resolve r a w with
    | (.err e, w1) => firstSuccess r rest (some e) w1
    | (.ok rc, w1) => (.ok rc, w1)
    | (.panic p, w1) => (.panic p, w1)

mutual
/-- A stream that can be read to its end and closed without a panic: no nil stream under a
`StreamReader`, no nil `close` in a `closer`, all the way down. -/
def Stream.sound : Stream → Bool
  | .handle _ => true
  | .nopCloser _ => true
  | .closer rd (some x) => Reader.sound rd && Stream.sound x
  | .closer _ none => false
def Reader.sound : Reader → Bool
  | .stream _ (some R) => Stream.sound R
  | .stream _ none => false
  | .limit _ _ => true
end

/-- A decryptor that, given a sound stream, returns a sound stream or an error. -/
def GoodDecryptor (dec : Decryptor) : Prop :=
  ∀ (s : Stream) (key nonce : Bytes) (w : World), s.sound = true →
    (∃ s1 w1, dec (some s) key nonce w = (.ok s1, w1) ∧ s1.sound = true) ∨
      ∃ e w1, dec (some s) key nonce w = (.err e, w1)

/-- A decompressor that, given a sound stream, returns a sound stream or an error. -/
def GoodDecompressor (dec : Decompressor) : Prop :=
  ∀ (s : Stream) (w : World), s.sound = true →
    (∃ s1 w1, dec (some s) w = (.ok s1, w1) ∧ s1.sound = true) ∨
      ∃ e w1, dec (some s) w = (.err e, w1)

/-- An AEAD constructor whose `Open` does not panic. -/
def GoodAEAD (newAEAD : Bytes → Except Error AEAD) : Prop :=
  ∀ (key : Bytes) (a : AEAD), newAEAD key = .ok a →
    ∀ (dst nonce ct ad : Bytes) (p : Panic), a.Open dst nonce ct ad ≠ .panic p

/-- A stage the resolver `r` runs without a panic of a provider or of a slice expression:
no negative `Slice.Begin`, and the providers registered under the algorithms it names are
good ones. -/
def Stage.tame (r : Resolver) (s : Stage) : Prop :=
  (∀ c, s.Slice = some c → 0 ≤ c.Begin) ∧
    (∀ c dec, s.Cipher = some c → r.decryptors c.Algo = some dec → GoodDecryptor dec) ∧
    (∀ c mk, s.AEAD = some c → r.aeads c.Algo = some mk → GoodAEAD mk) ∧
    (∀ c dec, s.Compress = some c → r.decompressors c.Algo = some dec →
      GoodDecompressor dec)

/-- The result of a step that did not panic: a sound stream, or an error. -/
def SoundOrError (o : Outcome (Option Stream) × World) : Prop :=
  (∃ s w1, o = (.ok (some s), w1) ∧ s.sound = true) ∨ ∃ e w1, o = (.err e, w1)

/-! ## Theorems -/

/-! ### Validation -/

theorem IsSource_iff (s : Stage) : s.IsSource = true ↔ SourcePopulated s := by
  unfold Stage.IsSource SourcePopulated
  cases s.File <;> cases s.HTTP <;> cases s.IPFS <;> cases s.Any <;> cases s.Table <;> simp

theorem Validate_tail_isSome (l : List Stage) (i : Nat) :
    (Validate.tail l i).isSome = true ↔ ∃ (j : Nat) (s : Stage), l[j]? = some s ∧ s.IsSource = true := by
  induction l generalizing i with
  | nil => simp [Validate.tail]
  | cons a rest ih =>
    unfold Validate.tail
    by_cases ha : a.IsSource = true
    · simp only [ha, if_true, Option.isSome_some, true_iff]
      exact ⟨0, a, by simp, ha⟩
    · simp only [ha, Bool.false_eq_true, if_false, ih]
      constructor
      · rintro ⟨j, s, hj, hs⟩
        exact ⟨j + 1, s, by simpa using hj, hs⟩
      · rintro ⟨j, s, hj, hs⟩
        cases j with
        | zero =>
          simp only [List.getElem?_cons_zero, Option.some.injEq] at hj
          subst hj
          exact absurd hs ha
        | succ k => exact ⟨k, s, by simpa using hj, hs⟩

/-- C2: `Validate` returns an error exactly when the Ref has no stage, or its first stage is
not a source, or some stage at an index of at least 1 is a source (`File`, `HTTP`, `IPFS`,
`Any` or `Table` populated); in every other case it returns the nil error. -/
theorem Validate_error_iff (r : Ref) :
    (Validate r ≠ none ↔
      (r.length = 0 ∨ (∃ s, r[0]? = some s ∧ ¬ SourcePopulated s) ∨
        ∃ i s, 1 ≤ i ∧ r[i]? = some s ∧ SourcePopulated s)) ∧
    (Validate r = none ↔
      (r.length ≠ 0 ∧ (∀ s, r[0]? = some s → SourcePopulated s) ∧
        ∀ i s, 1 ≤ i → r[i]? = some s → ¬ SourcePopulated s)) := by
  have key : Validate r ≠ none ↔
      (r.length = 0 ∨ (∃ s, r[0]? = some s ∧ ¬ SourcePopulated s) ∨
        ∃ i s, 1 ≤ i ∧ r[i]? = some s ∧ SourcePopulated s) := by
    cases r with
    | nil => simp [Validate]
    | cons s0 rest =>
      unfold Validate
      by_cases h0 : s0.IsSource = true
      · have hp : SourcePopulated s0 := (IsSource_iff s0).1 h0
        simp only [h0, Bool.not_true, Bool.false_eq_true, if_false, ne_eq,
          ← Option.isSome_iff_ne_none, Validate_tail_isSome, List.length_cons,
          Nat.add_one_ne_zero, false_or, List.getElem?_cons_zero, Option.some.injEq]
        constructor
        · rintro ⟨j, s, hj, hs⟩
          exact Or.inr ⟨j + 1, s, by omega, by simpa using hj, (IsSource_iff s).1 hs⟩
        · rintro (⟨s, hs, hn⟩ | ⟨i, s, hi, hg, hs⟩)
          · subst hs
            exact absurd hp hn
          · obtain ⟨k, rfl⟩ : ∃ k, i = k + 1 := ⟨i - 1, by omega⟩
            exact ⟨k, s, by simpa using hg, (IsSource_iff s).2 hs⟩
      · have hp : ¬ SourcePopulated s0 := fun h => h0 ((IsSource_iff s0).2 h)
        simp only [h0, Bool.not_false, if_true, ne_eq, reduceCtorEq, not_false_eq_true,
          true_iff]
        exact Or.inr (Or.inl ⟨s0, by simp, hp⟩)
  refine ⟨key, ?_⟩
  rw [← not_iff_not, ← ne_eq, key]
  constructor
  · rintro h ⟨h1, h2, h3⟩
    rcases h with h | ⟨s, hs, hn⟩ | ⟨i, s, hi, hg, hs⟩
    · exact h1 h
    · exact hn (h2 s hs)
    · exact h3 i s hi hg hs
  · intro h
    by_contra hc
    push_neg at hc
    apply h
    refine ⟨hc.1, ?_, ?_⟩
    · intro s hs
      exact hc.2.1 s hs
    · intro i s hi hg hs
      exact hc.2.2 i s hi hg hs

/-! ### Mutability -/

/-- The first iteration of the loop of `IsMutable` reads `r[len(r)]`: the call panics with an
index out of range on every Ref. -/
theorem IsMutable_index_out_of_range (r : Ref) :
    IsMutable r = .panic (.indexOutOfRange r.length r.length) := by
  unfold IsMutable
  rw [IsMutable.loop, dif_neg (Nat.lt_irrefl _)]


/-- The loop of `IsMutable` entered at an index `i` inside the Ref, over a source stage
followed by `Cipher`, `Slice` and `Hash` stages: a `Hash` stage met before the source ends
the scan with `false`, `Cipher` and `Slice` stages are passed over. -/
theorem IsMutable_loop_transforms (src : Stage) (ts : List Stage)
    (hts : ∀ t ∈ ts, t.File = none ∧ t.HTTP = none ∧ t.IPFS = none ∧
      (t.Cipher ≠ none ∨ t.Slice ≠ none ∨ t.Hash ≠ none))
    (hsrc : src.File ≠ none ∨ (src.File = none ∧ src.HTTP ≠ none) ∨
      (src.File = none ∧ src.HTTP = none ∧ src.IPFS = none ∧ src.Cipher = none ∧
        src.Slice = none ∧ src.Hash = none ∧ src.Any ≠ none))
    (i : Nat) (hi : i ≤ ts.length) :
    IsMutable.loop (src :: ts) i =
      .ok ((ts.take i).all fun t => t.Cipher.isSome || t.Slice.isSome) := by
  induction i with
  | zero =>
    rw [IsMutable.loop]
    simp only [List.length_cons, Nat.zero_lt_succ, dite_true, List.getElem_cons_zero,
      List.take_zero, List.all_nil]
    rcases hsrc with h | ⟨h1, h2⟩ | ⟨h1, h2, h3, h4, h5, h6, h7⟩
    · simp [Option.isSome_iff_ne_none.2 h]
    · simp [h1, Option.isSome_iff_ne_none.2 h2]
    · simp [h1, h2, h3, h4, h5, h6, Option.isSome_iff_ne_none.2 h7]
  | succ k ih =>
    have hk : k < ts.length := hi
    obtain ⟨hF, hH, hI, hrest⟩ := hts ts[k] (List.getElem_mem hk)
    rw [IsMutable.loop]
    have hlt : k + 1 < (src :: ts).length := by simp; omega
    rw [dif_pos hlt]
    simp only [List.getElem_cons_succ, hF, hH, hI, Option.isSome_none, Bool.false_eq_true,
      if_false, Nat.add_one_ne_zero, dite_false, Nat.add_sub_cancel]
    rw [List.take_succ, List.getElem?_eq_getElem hk, List.all_append, ih (Nat.le_of_lt hk)]
    by_cases hp : (ts[k].Cipher.isSome || ts[k].Slice.isSome) = true
    · simp [hp]
    · have hhash : ts[k].Hash.isSome = true := by
        rcases hrest with h | h | h
        · exact absurd (by simp [Option.isSome_iff_ne_none.2 h]) hp
        · exact absurd (by simp [Option.isSome_iff_ne_none.2 h]) hp
        · exact Option.isSome_iff_ne_none.2 h
      simp [hp, hhash]


/-- C4: `IsMutable` on `[HTTP, Hash]`, which the claim has return `false`: the loop starts at
index `len(r) = 2` and the call panics with an index out of range. -/
theorem IsMutable_refHTTPHash :
    IsMutable refHTTPHash = .panic (.indexOutOfRange 2 2) ∧
      IsMutable.loop refHTTPHash (refHTTPHash.length - 1) = .ok false := by
  refine ⟨IsMutable_index_out_of_range refHTTPHash, ?_⟩
  have h := IsMutable_loop_transforms (Stage.ofHTTP "https://example.com/1234")
    [Stage.ofHash Hash_SHA256 []] (by simp [Stage.ofHash, Stage.zero])
    (Or.inr (Or.inl ⟨rfl, by simp [Stage.ofHTTP]⟩)) 1 (Nat.le_refl _)
  exact h

/-- C5: `IsMutable` on `[File, Slice(0,10)]`, which the claim has return `true`: the loop
starts at index `len(r) = 2` and the call panics with an index out of range. -/
theorem IsMutable_refFileSlice :
    IsMutable refFileSlice = .panic (.indexOutOfRange 2 2) ∧
      IsMutable.loop refFileSlice (refFileSlice.length - 1) = .ok true := by
  refine ⟨IsMutable_index_out_of_range refFileSlice, ?_⟩
  have h := IsMutable_loop_transforms (Stage.ofFile "a.txt")
    [Stage.ofSlice 0 10] (by simp [Stage.ofSlice, Stage.zero])
    (Or.inl (by simp [Stage.ofFile])) 1 (Nat.le_refl _)
  exact h
/-! ### Round trip of the encoding -/

theorem refLib_base64 (b : Bytes) : refLib.base64Decode (refLib.base64Encode b) = .ok b := by
  have key : ∀ x : UInt8, (Char.ofNat x.toNat).toNat.toUInt8 = x := by
    intro x
    have hb : x.toNat < 256 := x.toNat_lt
    have hv : Nat.isValidChar x.toNat := Or.inl (by omega)
    have h1 : (Char.ofNat x.toNat).toNat = x.toNat := by
      unfold Char.ofNat
      rw [dif_pos hv]
      unfold Char.ofNatAux Char.toNat
      simp [UInt32.toNat]
    rw [h1]
    cases x
    simp [Nat.toUInt8, UInt8.ofNat, UInt8.toNat]
  simp only [refLib, List.map_map]
  congr 1
  induction b with
  | nil => rfl
  | cons x xs ih => simp [key x, ih]

theorem refLib_lawful : refLib.Lawful where
  json _ _ := rfl
  base64 := refLib_base64
  gzip _ := rfl
  pem _ := rfl

theorem fieldOf_file : fieldOf stageFields "file" = some "file" := by decide
theorem fieldOf_http : fieldOf stageFields "http" = some "http" := by decide
theorem fieldOf_ipfs : fieldOf stageFields "ipfs" = some "ipfs" := by decide
theorem fieldOf_cipher : fieldOf stageFields "cipher" = some "cipher" := by decide
theorem fieldOf_AEAD : fieldOf stageFields "AEAD" = some "AEAD" := by decide
theorem fieldOf_Compress : fieldOf stageFields "Compress" = some "Compress" := by decide
theorem fieldOf_slice : fieldOf stageFields "slice" = some "slice" := by decide
theorem fieldOf_hash : fieldOf stageFields "hash" = some "hash" := by decide
theorem fieldOf_any : fieldOf stageFields "any" = some "any" := by decide
theorem fieldOf_table : fieldOf stageFields "table" = some "table" := by decide

theorem decBytes_encBytes {T : Type} (lib : Lib T) (hl : lib.Lawful) (b : Bytes) :
    decBytes lib (encBytes lib b) = .ok b := by
  simp only [encBytes, decBytes, hl.base64]

theorem runesLess_asymm : ∀ a b : List Char, runesLess a b = true → runesLess b a = false
  | _, [], h => by simp [runesLess] at h
  | [], _ :: _, _ => rfl
  | a :: as, b :: bs, h => by
    simp only [runesLess, Bool.or_eq_true, decide_eq_true_eq, Bool.and_eq_true,
      beq_iff_eq] at h
    simp only [runesLess, Bool.or_eq_false_iff, decide_eq_false_iff_not, Bool.and_eq_false_imp,
      beq_iff_eq]
    rcases h with h | ⟨h1, h2⟩
    · exact ⟨by omega, fun e => by omega⟩
    · exact ⟨by omega, fun _ => runesLess_asymm as bs h2⟩

theorem keyLess_asymm (a b : String) (h : keyLess a b = true) : keyLess b a = false :=
  runesLess_asymm _ _ h

theorem keyLess_ne (a b : String) (h : keyLess a b = true) : b ≠ a := by
  rintro rfl
  have := keyLess_asymm b b h
  rw [h] at this
  cases this

/-- Storing a key greater than every key of the map puts its entry last. -/
theorem mapStore_last (k v : String) (m : List (String × String))
    (h : ∀ p ∈ m, keyLess p.1 k = true) : mapStore k v m = m ++ [(k, v)] := by
  induction m with
  | nil => rfl
  | cons a rest ih =>
    obtain ⟨k', v'⟩ := a
    have h1 : keyLess k' k = true := h (k', v') (List.mem_cons_self _ _)
    have h2 : ¬ keyLess k k' = true := by simp [keyLess_asymm k' k h1]
    have h3 : ¬ k = k' := keyLess_ne k' k h1
    simp only [mapStore, if_neg h2, if_neg h3, List.cons_append]
    rw [ih fun p hp => h p (List.mem_cons_of_mem _ hp)]

theorem decHeaderEntries_ascending (kvs m : List (String × String))
    (hk : (kvs.map Prod.fst).Pairwise fun a b => keyLess a b = true)
    (hm : ∀ p ∈ m, ∀ q ∈ kvs, keyLess p.1 q.1 = true) :
    decHeaderEntries m (kvs.map fun kv => (kv.1, JSON.str kv.2)) = .ok (m ++ kvs) := by
  induction kvs generalizing m with
  | nil => simp [decHeaderEntries]
  | cons a rest ih =>
    obtain ⟨k, v⟩ := a
    simp only [List.map_cons, List.pairwise_cons] at hk
    simp only [List.map_cons, decHeaderEntries, decString]
    rw [mapStore_last k v m fun p hp => hm p hp (k, v) (List.mem_cons_self _ _), ih _ hk.2]
    · simp
    · intro p hp q hq
      rcases List.mem_append.1 hp with hp | hp
      · exact hm p hp q (List.mem_cons_of_mem _ hq)
      · simp only [List.mem_singleton] at hp
        subst hp
        exact hk.1 q.1 (List.mem_map_of_mem _ hq)

theorem decHeaders_encHeaders (h : Option (List (String × String)))
    (hk : ∀ kvs, h = some kvs → keysAscending kvs = true) :
    decHeaders none (encHeaders h) = .ok h := by
  cases h with
  | none => rfl
  | some kvs =>
    have hk1 : (kvs.map Prod.fst).Pairwise fun a b => keyLess a b = true := by
      simpa [keysAscending] using hk kvs rfl
    have key := decHeaderEntries_ascending kvs [] hk1 (fun p hp => by cases hp)
    simp only [encHeaders, decHeaders, Option.getD_none, key, List.nil_append]

theorem dec_HTTPSource (h : HTTPSource)
    (hk : ∀ kvs, h.Headers = some kvs → keysAscending kvs = true) :
    decPtr ⟨"", none⟩ "webref.HTTPSource" ["url", "headers"] HTTPSource.set none h.toJSON =
      .ok (some h) := by
  have e1 : fieldOf ["url", "headers"] "url" = some "url" := by decide
  have e2 : fieldOf ["url", "headers"] "headers" = some "headers" := by decide
  obtain ⟨url, hd⟩ := h
  simp [HTTPSource.toJSON, decPtr, decFields, e1, e2, HTTPSource.set, decString,
    Except.map, decHeaders_encHeaders hd hk]

theorem dec_CipherStage {T : Type} (lib : Lib T) (hl : lib.Lawful) (c : CipherStage) :
    decPtr ⟨"", [], []⟩ "webref.CipherStage" ["algo", "key", "nonce"] (CipherStage.set lib)
      none (c.toJSON lib) = .ok (some c) := by
  have e1 : fieldOf ["algo", "key", "nonce"] "algo" = some "algo" := by decide
  have e2 : fieldOf ["algo", "key", "nonce"] "key" = some "key" := by decide
  have e3 : fieldOf ["algo", "key", "nonce"] "nonce" = some "nonce" := by decide
  obtain ⟨a, k, n⟩ := c
  simp [CipherStage.toJSON, decPtr, decFields, e1, e2, e3, CipherStage.set, decString,
    Except.map, decBytes_encBytes lib hl]

theorem dec_AEADStage {T : Type} (lib : Lib T) (hl : lib.Lawful) (c : AEADStage) :
    decPtr ⟨"", [], []⟩ "webref.AEADStage" ["algo", "key", "nonce"] (AEADStage.set lib)
      none (c.toJSON lib) = .ok (some c) := by
  have e1 : fieldOf ["algo", "key", "nonce"] "algo" = some "algo" := by decide
  have e2 : fieldOf ["algo", "key", "nonce"] "key" = some "key" := by decide
  have e3 : fieldOf ["algo", "key", "nonce"] "nonce" = some "nonce" := by decide
  obtain ⟨a, k, n⟩ := c
  simp [AEADStage.toJSON, decPtr, decFields, e1, e2, e3, AEADStage.set, decString,
    Except.map, decBytes_encBytes lib hl]

theorem dec_CompressStage (c : CompressStage) :
    decPtr ⟨""⟩ "webref.CompressStage" ["algo"] CompressStage.set none c.toJSON =
      .ok (some c) := by
  have e1 : fieldOf ["algo"] "algo" = some "algo" := by decide
  obtain ⟨a⟩ := c
  simp [CompressStage.toJSON, decPtr, decFields, e1, CompressStage.set, decString, Except.map]

theorem dec_SliceStage (c : SliceStage) (hb : fitsInt c.Begin = true)
    (he : fitsInt c.End = true) :
    decPtr ⟨0, 0⟩ "webref.SliceStage" ["begin", "end"] SliceStage.set none c.toJSON =
      .ok (some c) := by
  have e1 : fieldOf ["begin", "end"] "begin" = some "begin" := by decide
  have e2 : fieldOf ["begin", "end"] "end" = some "end" := by decide
  obtain ⟨b, e⟩ := c
  simp only [fitsInt, decide_eq_true_eq] at hb he
  simp only [SliceStage.toJSON, decPtr, decFields, e1, e2, SliceStage.set, decInt, Except.map,
    if_pos hb, if_pos he, Option.getD_none, if_true]
  simp

theorem dec_HashCheck {T : Type} (lib : Lib T) (hl : lib.Lawful) (c : HashCheck) :
    decPtr ⟨"", []⟩ "webref.HashCheck" ["algo", "sum"] (HashCheck.set lib)
      none (c.toJSON lib) = .ok (some c) := by
  have e1 : fieldOf ["algo", "sum"] "algo" = some "algo" := by decide
  have e2 : fieldOf ["algo", "sum"] "sum" = some "sum" := by decide
  obtain ⟨a, k⟩ := c
  simp [HashCheck.toJSON, decPtr, decFields, e1, e2, HashCheck.set, decString,
    Except.map, decBytes_encBytes lib hl]

theorem step_file {T : Type} (lib : Lib T) (cur : Stage) (f : Option String)
    (rest : List (String × JSON)) (h : cur.File = none) :
    decodeStageFields lib cur (omitEmpty "file" JSON.str f ++ rest) =
      decodeStageFields lib { cur with File := f } rest := by
  cases f with
  | none =>
    have : { cur with File := none } = cur := by cases cur; simp_all
    simp only [omitEmpty, List.nil_append, this]
  | some p =>
    simp [omitEmpty, decodeStageFields, fieldOf_file, decStringPtr]

theorem step_http {T : Type} (lib : Lib T) (cur : Stage) (f : Option HTTPSource)
    (rest : List (String × JSON)) (h : cur.HTTP = none)
    (hf : ∀ p kvs, f = some p → p.Headers = some kvs → keysAscending kvs = true) :
    decodeStageFields lib cur (omitEmpty "http" HTTPSource.toJSON f ++ rest) =
      decodeStageFields lib { cur with HTTP := f } rest := by
  cases f with
  | none =>
    have : { cur with HTTP := none } = cur := by cases cur; simp_all
    simp only [omitEmpty, List.nil_append, this]
  | some p =>
    simp [omitEmpty, decodeStageFields, fieldOf_http, h,
      dec_HTTPSource p fun kvs hk => hf p kvs rfl hk]

theorem step_ipfs {T : Type} (lib : Lib T) (cur : Stage) (f : Option String)
    (rest : List (String × JSON)) (h : cur.IPFS = none) :
    decodeStageFields lib cur (omitEmpty "ipfs" JSON.str f ++ rest) =
      decodeStageFields lib { cur with IPFS := f } rest := by
  cases f with
  | none =>
    have : { cur with IPFS := none } = cur := by cases cur; simp_all
    simp only [omitEmpty, List.nil_append, this]
  | some p =>
    simp [omitEmpty, decodeStageFields, fieldOf_ipfs, decStringPtr]

theorem step_cipher {T : Type} (lib : Lib T) (hl : lib.Lawful) (cur : Stage)
    (f : Option CipherStage) (rest : List (String × JSON)) (h : cur.Cipher = none) :
    decodeStageFields lib cur (omitEmpty "cipher" (CipherStage.toJSON lib) f ++ rest) =
      decodeStageFields lib { cur with Cipher := f } rest := by
  cases f with
  | none =>
    have : { cur with Cipher := none } = cur := by cases cur; simp_all
    simp only [omitEmpty, List.nil_append, this]
  | some p =>
    simp [omitEmpty, decodeStageFields, fieldOf_cipher, h, dec_CipherStage lib hl]

theorem step_AEAD {T : Type} (lib : Lib T) (hl : lib.Lawful) (cur : Stage)
    (f : Option AEADStage) (rest : List (String × JSON)) (h : cur.AEAD = none) :
    decodeStageFields lib cur ([("AEAD", orNull (AEADStage.toJSON lib) f)] ++ rest) =
      decodeStageFields lib { cur with AEAD := f } rest := by
  cases f with
  | none => simp [orNull, decodeStageFields, fieldOf_AEAD, decPtr]
  | some p => simp [orNull, decodeStageFields, fieldOf_AEAD, h, dec_AEADStage lib hl]

theorem step_Compress {T : Type} (lib : Lib T) (cur : Stage)
    (f : Option CompressStage) (rest : List (String × JSON)) (h : cur.Compress = none) :
    decodeStageFields lib cur ([("Compress", orNull CompressStage.toJSON f)] ++ rest) =
      decodeStageFields lib { cur with Compress := f } rest := by
  cases f with
  | none => simp [orNull, decodeStageFields, fieldOf_Compress, decPtr]
  | some p => simp [orNull, decodeStageFields, fieldOf_Compress, h, dec_CompressStage]

theorem step_slice {T : Type} (lib : Lib T) (cur : Stage)
    (f : Option SliceStage) (rest : List (String × JSON)) (h : cur.Slice = none)
    (hf : ∀ c, f = some c → fitsInt c.Begin = true ∧ fitsInt c.End = true) :
    decodeStageFields lib cur (omitEmpty "slice" SliceStage.toJSON f ++ rest) =
      decodeStageFields lib { cur with Slice := f } rest := by
  cases f with
  | none =>
    have : { cur with Slice := none } = cur := by cases cur; simp_all
    simp only [omitEmpty, List.nil_append, this]
  | some p =>
    obtain ⟨hb, he⟩ := hf p rfl
    simp [omitEmpty, decodeStageFields, fieldOf_slice, h, dec_SliceStage p hb he]

theorem step_hash {T : Type} (lib : Lib T) (hl : lib.Lawful) (cur : Stage)
    (f : Option HashCheck) (rest : List (String × JSON)) (h : cur.Hash = none) :
    decodeStageFields lib cur (omitEmpty "hash" (HashCheck.toJSON lib) f ++ rest) =
      decodeStageFields lib { cur with Hash := f } rest := by
  cases f with
  | none =>
    have : { cur with Hash := none } = cur := by cases cur; simp_all
    simp only [omitEmpty, List.nil_append, this]
  | some p =>
    simp [omitEmpty, decodeStageFields, fieldOf_hash, h, dec_HashCheck lib hl]

theorem decodeAny_arr {T : Type} (lib : Lib T) (xs : List JSON) :
    decodeAny lib (JSON.arr xs) =
      match decodeRefs lib xs with
      | .ok rs => .ok (some rs)
      | .error e => .error e := rfl

theorem decodeTable_arr {T : Type} (lib : Lib T) (xs : List JSON) :
    decodeTable lib (JSON.arr xs) =
      match decodeEntries lib xs with
      | .ok es => .ok (some es)
      | .error e => .error e := rfl

theorem step_any {T : Type} (lib : Lib T) (cur : Stage) (r : List Stage)
    (rs : List (List Stage)) (rest : List (String × JSON))
    (hd : decodeRefs lib (anyToJSON lib (r :: rs)) = .ok (r :: rs)) :
    decodeStageFields lib cur ([("any", JSON.arr (anyToJSON lib (r :: rs)))] ++ rest) =
      decodeStageFields lib { cur with Any := some (r :: rs) } rest := by
  simp [decodeStageFields, fieldOf_any, decodeAny_arr, hd]

theorem decodeStageFields_cons {T : Type} (lib : Lib T) (cur : Stage) (k : String) (v : JSON)
    (rest : List (String × JSON)) (n : String) (h : fieldOf stageFields k = some n) :
    decodeStageFields lib cur ((k, v) :: rest) =
      if n = "file" then
        (match decStringPtr cur.File v with
         | .ok x => decodeStageFields lib { cur with File := x } rest
         | .error e => .error e)
      else if n = "http" then
        (match decPtr ⟨"", none⟩ "webref.HTTPSource" ["url", "headers"] HTTPSource.set
            cur.HTTP v with
         | .ok x => decodeStageFields lib { cur with HTTP := x } rest
         | .error e => .error e)
      else if n = "ipfs" then
        (match decStringPtr cur.IPFS v with
         | .ok x => decodeStageFields lib { cur with IPFS := x } rest
         | .error e => .error e)
      else if n = "cipher" then
        (match decPtr ⟨"", [], []⟩ "webref.CipherStage" ["algo", "key", "nonce"]
            (CipherStage.set lib) cur.Cipher v with
         | .ok x => decodeStageFields lib { cur with Cipher := x } rest
         | .error e => .error e)
      else if n = "AEAD" then
        (match decPtr ⟨"", [], []⟩ "webref.AEADStage" ["algo", "key", "nonce"]
            (AEADStage.set lib) cur.AEAD v with
         | .ok x => decodeStageFields lib { cur with AEAD := x } rest
         | .error e => .error e)
      else if n = "Compress" then
        (match decPtr ⟨""⟩ "webref.CompressStage" ["algo"] CompressStage.set
            cur.Compress v with
         | .ok x => decodeStageFields lib { cur with Compress := x } rest
         | .error e => .error e)
      else if n = "slice" then
        (match decPtr ⟨0, 0⟩ "webref.SliceStage" ["begin", "end"] SliceStage.set
            cur.Slice v with
         | .ok x => decodeStageFields lib { cur with Slice := x } rest
         | .error e => .error e)
      else if n = "hash" then
        (match decPtr ⟨"", []⟩ "webref.HashCheck" ["algo", "sum"] (HashCheck.set lib)
            cur.Hash v with
         | .ok x => decodeStageFields lib { cur with Hash := x } rest
         | .error e => .error e)
      else if n = "any" then
        (match decodeAny lib v with
         | .ok x => decodeStageFields lib { cur with Any := x } rest
         | .error e => .error e)
      else
        (match decodeTable lib v with
         | .ok x => decodeStageFields lib { cur with Table := x } rest
         | .error e => .error e) := by
  rw [decodeStageFields, h]

theorem step_table {T : Type} (lib : Lib T) (cur : Stage) (e : TableEntryOf (List Stage))
    (es : List (TableEntryOf (List Stage))) (rest : List (String × JSON))
    (hd : decodeEntries lib (tableToJSON lib (e :: es)) = .ok (e :: es)) :
    decodeStageFields lib cur ([("table", JSON.arr (tableToJSON lib (e :: es)))] ++ rest) =
      decodeStageFields lib { cur with Table := some (e :: es) } rest := by
  rw [List.singleton_append, decodeStageFields_cons lib cur _ _ _ _ fieldOf_table]
  rw [if_neg (by decide), if_neg (by decide), if_neg (by decide), if_neg (by decide),
    if_neg (by decide), if_neg (by decide), if_neg (by decide), if_neg (by decide),
    if_neg (by decide), decodeTable_arr, hd]

theorem decodeStage_obj {T : Type} (lib : Lib T) (cur : Stage) (kvs : List (String × JSON)) :
    decodeStage lib cur (JSON.obj kvs) = decodeStageFields lib cur kvs := rfl

theorem decodeStageFields_nil {T : Type} (lib : Lib T) (cur : Stage) :
    decodeStageFields lib cur [] = .ok cur := rfl

theorem decodeStages_cons {T : Type} (lib : Lib T) (j : JSON) (rest : List JSON) :
    decodeStages lib (j :: rest) =
      match decodeStage lib Stage.zero j with
      | .ok s =>
        (match decodeStages lib rest with
         | .ok ss => .ok (s :: ss)
         | .error e => .error e)
      | .error e => .error e := rfl

theorem decodeRefs_cons {T : Type} (lib : Lib T) (j : JSON) (rest : List JSON) :
    decodeRefs lib (j :: rest) =
      match decodeRef lib j with
      | .ok r =>
        (match decodeRefs lib rest with
         | .ok rs => .ok (r :: rs)
         | .error e => .error e)
      | .error e => .error e := rfl

theorem decodeRef_arr {T : Type} (lib : Lib T) (xs : List JSON) :
    decodeRef lib (JSON.arr xs) = decodeStages lib xs := rfl

theorem decodeEntries_cons {T : Type} (lib : Lib T) (j : JSON) (rest : List JSON) :
    decodeEntries lib (j :: rest) =
      match decodeEntry lib ⟨0, []⟩ j with
      | .ok te =>
        (match decodeEntries lib rest with
         | .ok es => .ok (te :: es)
         | .error e => .error e)
      | .error e => .error e := rfl

theorem decodeEntry_pair {T : Type} (lib : Lib T) (cur : TableEntryOf (List Stage))
    (off : Int) (target : JSON) :
    decodeEntry lib cur (JSON.obj [("Offset", .num off), ("Target", target)]) =
      match decUint64 cur.Offset (.num off) with
      | .ok x =>
        (match decodeRef lib target with
         | .ok y => .ok ⟨x, y⟩
         | .error e => .error e)
      | .error e => .error e := by
  have e1 : fieldOf ["Offset", "Target"] "Offset" = some "Offset" := by decide
  have e2 : fieldOf ["Offset", "Target"] "Target" = some "Target" := by decide
  have h0 : decodeEntry lib cur (JSON.obj [("Offset", .num off), ("Target", target)]) =
      decodeEntryFields lib cur [("Offset", .num off), ("Target", target)] := rfl
  rw [h0, decodeEntryFields, e1]
  dsimp only
  rw [if_pos rfl]
  cases decUint64 cur.Offset (.num off) with
  | error e => rfl
  | ok x =>
    dsimp only
    rw [decodeEntryFields, e2]
    dsimp only
    rw [if_neg (by decide)]
    cases decodeRef lib target with
    | error e => rfl
    | ok y => rfl

theorem decodeStageFields_leading {T : Type} (lib : Lib T) (hl : lib.Lawful)
    (File : Option String) (HTTP : Option HTTPSource) (IPFS : Option String)
    (Cipher : Option CipherStage) (AEAD : Option AEADStage) (Compress : Option CompressStage)
    (Slice : Option SliceStage) (Hash : Option HashCheck)
    (hhttp : ∀ p kvs, HTTP = some p → p.Headers = some kvs → keysAscending kvs = true)
    (hslice : ∀ c, Slice = some c → fitsInt c.Begin = true ∧ fitsInt c.End = true)
    (rest : List (String × JSON)) :
    decodeStageFields lib Stage.zero
        (omitEmpty "file" JSON.str File ++
          (omitEmpty "http" HTTPSource.toJSON HTTP ++
            (omitEmpty "ipfs" JSON.str IPFS ++
              (omitEmpty "cipher" (CipherStage.toJSON lib) Cipher ++
                ([("AEAD", orNull (AEADStage.toJSON lib) AEAD)] ++
                  ([("Compress", orNull CompressStage.toJSON Compress)] ++
                    (omitEmpty "slice" SliceStage.toJSON Slice ++
                      (omitEmpty "hash" (HashCheck.toJSON lib) Hash ++ rest)))))))) =
      decodeStageFields lib
        ⟨File, HTTP, IPFS, Cipher, AEAD, Compress, Slice, Hash, none, none⟩ rest := by
  rw [step_file lib _ _ _ rfl, step_http lib _ _ _ rfl hhttp,
    step_ipfs lib _ _ _ rfl, step_cipher lib hl _ _ _ rfl, step_AEAD lib hl _ _ _ rfl,
    step_Compress lib _ _ _ rfl, step_slice lib _ _ _ rfl hslice, step_hash lib hl _ _ _ rfl]
  rfl

theorem decodeStage_core {T : Type} (lib : Lib T) (hl : lib.Lawful)
    (File : Option String) (HTTP : Option HTTPSource) (IPFS : Option String)
    (Cipher : Option CipherStage) (AEAD : Option AEADStage) (Compress : Option CompressStage)
    (Slice : Option SliceStage) (Hash : Option HashCheck) (Any : Option (List (List Stage)))
    (Table : Option (List (TableEntryOf (List Stage))))
    (hhttp : ∀ p kvs, HTTP = some p → p.Headers = some kvs → keysAscending kvs = true)
    (hslice : ∀ c, Slice = some c → fitsInt c.Begin = true ∧ fitsInt c.End = true)
    (hne1 : Any ≠ some []) (hne2 : Table ≠ some [])
    (hany : ∀ rs, Any = some rs → decodeRefs lib (anyToJSON lib rs) = .ok rs)
    (htab : ∀ es, Table = some es → decodeEntries lib (tableToJSON lib es) = .ok es) :
    decodeStage lib Stage.zero
        (Stage.toJSON lib ⟨File, HTTP, IPFS, Cipher, AEAD, Compress, Slice, Hash, Any, Table⟩) =
      .ok ⟨File, HTTP, IPFS, Cipher, AEAD, Compress, Slice, Hash, Any, Table⟩ := by
  have h8 := decodeStageFields_leading lib hl File HTTP IPFS Cipher AEAD Compress Slice Hash
    hhttp hslice
  rcases Table with _ | ⟨_ | ⟨e, es⟩⟩
  · rcases Any with _ | ⟨_ | ⟨r, rs⟩⟩
    · simp only [Stage.toJSON, List.append_assoc]
      rw [decodeStage_obj, h8]
      rfl
    · exact absurd rfl hne1
    · simp only [Stage.toJSON, List.append_assoc]
      rw [decodeStage_obj, h8, step_any lib _ r rs _ (hany _ rfl)]
      rfl
  · exact absurd rfl hne2
  · have ht := htab _ rfl
    rcases Any with _ | ⟨_ | ⟨r, rs⟩⟩
    · simp only [Stage.toJSON, List.append_assoc]
      rw [decodeStage_obj, h8, List.nil_append, ← List.append_nil [("table", _)],
        step_table lib _ e es _ ht]
      rfl
    · exact absurd rfl hne1
    · simp only [Stage.toJSON, List.append_assoc]
      rw [decodeStage_obj, h8, step_any lib _ r rs _ (hany _ rfl),
        ← List.append_nil [("table", _)], step_table lib _ e es _ ht]
      rfl

theorem HTTPSource.inOrder_headers (HTTP : Option HTTPSource)
    (h : (match HTTP with
      | none => true
      | some p => p.inOrder) = true) :
    ∀ p kvs, HTTP = some p → p.Headers = some kvs → keysAscending kvs = true := by
  intro p kvs h1 h2
  subst h1
  simpa [HTTPSource.inOrder, h2] using h

mutual
theorem decodeStage_toJSON {T : Type} (lib : Lib T) (hl : lib.Lawful) :
    (s : Stage) → s.inRange = true → s.mapsInOrder = true → s.noEmptyList = true →
      decodeStage lib Stage.zero (Stage.toJSON lib s) = .ok s
  | ⟨File, HTTP, IPFS, Cipher, AEAD, Compress, Slice, Hash, none, none⟩, hr, hm, _ => by
    simp only [Stage.inRange, Bool.and_eq_true] at hr
    simp only [Stage.mapsInOrder, Bool.and_eq_true] at hm
    exact decodeStage_core lib hl File HTTP IPFS Cipher AEAD Compress Slice Hash none none
      (HTTPSource.inOrder_headers HTTP hm.1.1)
      (fun c hc => by subst hc; simpa using hr.1.1) (by simp) (by simp)
      (fun _ h => by cases h) (fun _ h => by cases h)
  | ⟨File, HTTP, IPFS, Cipher, AEAD, Compress, Slice, Hash, some rs, none⟩, hr, hm, hn => by
    simp only [Stage.inRange, Bool.and_eq_true] at hr
    simp only [Stage.mapsInOrder, Bool.and_eq_true] at hm
    have hne : rs ≠ [] := by rintro rfl; simp [Stage.noEmptyList] at hn
    have hn1 : anyNoEmptyList rs = true := by
      cases rs with
      | nil => exact absurd rfl hne
      | cons r rs => simpa [Stage.noEmptyList] using hn
    have ih := decodeRefs_toJSON lib hl rs hr.1.2 hm.1.2 hn1
    exact decodeStage_core lib hl File HTTP IPFS Cipher AEAD Compress Slice Hash _ _
      (HTTPSource.inOrder_headers HTTP hm.1.1)
      (fun c hc => by subst hc; simpa using hr.1.1) (by simpa using hne) (by simp)
      (fun _ h => by cases h; exact ih) (fun _ h => by cases h)
  | ⟨File, HTTP, IPFS, Cipher, AEAD, Compress, Slice, Hash, none, some es⟩, hr, hm, hn => by
    simp only [Stage.inRange, Bool.and_eq_true] at hr
    simp only [Stage.mapsInOrder, Bool.and_eq_true] at hm
    have hne : es ≠ [] := by rintro rfl; simp [Stage.noEmptyList] at hn
    have hn1 : tableNoEmptyList es = true := by
      cases es with
      | nil => exact absurd rfl hne
      | cons e es => simpa [Stage.noEmptyList] using hn
    have ih := decodeEntries_toJSON lib hl es hr.2 hm.2 hn1
    exact decodeStage_core lib hl File HTTP IPFS Cipher AEAD Compress Slice Hash _ _
      (HTTPSource.inOrder_headers HTTP hm.1.1)
      (fun c hc => by subst hc; simpa using hr.1.1) (by simp) (by simpa using hne)
      (fun _ h => by cases h) (fun _ h => by cases h; exact ih)
  | ⟨File, HTTP, IPFS, Cipher, AEAD, Compress, Slice, Hash, some rs, some es⟩, hr, hm, hn => by
    simp only [Stage.inRange, Bool.and_eq_true] at hr
    simp only [Stage.mapsInOrder, Bool.and_eq_true] at hm
    have hne : rs ≠ [] := by rintro rfl; simp [Stage.noEmptyList] at hn
    have hne2 : es ≠ [] := by
      rintro rfl
      cases rs <;> simp [Stage.noEmptyList] at hn
    have hn1 : anyNoEmptyList rs = true ∧ tableNoEmptyList es = true := by
      cases rs with
      | nil => exact absurd rfl hne
      | cons r rs =>
        cases es with
        | nil => exact absurd rfl hne2
        | cons e es => simpa [Stage.noEmptyList] using hn
    have ih1 := decodeRefs_toJSON lib hl rs hr.1.2 hm.1.2 hn1.1
    have ih2 := decodeEntries_toJSON lib hl es hr.2 hm.2 hn1.2
    exact decodeStage_core lib hl File HTTP IPFS Cipher AEAD Compress Slice Hash _ _
      (HTTPSource.inOrder_headers HTTP hm.1.1)
      (fun c hc => by subst hc; simpa using hr.1.1) (by simpa using hne) (by simpa using hne2)
      (fun _ h => by cases h; exact ih1) (fun _ h => by cases h; exact ih2)
theorem decodeStages_toJSON {T : Type} (lib : Lib T) (hl : lib.Lawful) :
    (l : List Stage) → stagesInRange l = true → stagesMapsInOrder l = true →
      stagesNoEmptyList l = true → decodeStages lib (stagesToJSON lib l) = .ok l
  | [], _, _, _ => rfl
  | s :: rest, hr, hm, hn => by
    simp only [stagesInRange, Bool.and_eq_true] at hr
    simp only [stagesMapsInOrder, Bool.and_eq_true] at hm
    simp only [stagesNoEmptyList, Bool.and_eq_true] at hn
    rw [stagesToJSON, decodeStages_cons, decodeStage_toJSON lib hl s hr.1 hm.1 hn.1,
      decodeStages_toJSON lib hl rest hr.2 hm.2 hn.2]
theorem decodeRefs_toJSON {T : Type} (lib : Lib T) (hl : lib.Lawful) :
    (rs : List (List Stage)) → anyInRange rs = true → anyMapsInOrder rs = true →
      anyNoEmptyList rs = true → decodeRefs lib (anyToJSON lib rs) = .ok rs
  | [], _, _, _ => rfl
  | r :: rest, hr, hm, hn => by
    simp only [anyInRange, Bool.and_eq_true] at hr
    simp only [anyMapsInOrder, Bool.and_eq_true] at hm
    simp only [anyNoEmptyList, Bool.and_eq_true] at hn
    rw [anyToJSON, decodeRefs_cons, decodeRef_arr,
      decodeStages_toJSON lib hl r hr.1 hm.1 hn.1,
      decodeRefs_toJSON lib hl rest hr.2 hm.2 hn.2]
theorem decodeEntries_toJSON {T : Type} (lib : Lib T) (hl : lib.Lawful) :
    (es : List (TableEntryOf (List Stage))) → tableInRange es = true →
      tableMapsInOrder es = true → tableNoEmptyList es = true →
      decodeEntries lib (tableToJSON lib es) = .ok es
  | [], _, _, _ => rfl
  | ⟨off, target⟩ :: rest, hr, hm, hn => by
    simp only [tableInRange, Bool.and_eq_true, fitsUint64, decide_eq_true_eq] at hr
    simp only [tableMapsInOrder, Bool.and_eq_true] at hm
    simp only [tableNoEmptyList, Bool.and_eq_true] at hn
    have hoff : (0 : Int) ≤ (off : Int) ∧ (off : Int) < 2 ^ 64 := by
      constructor
      · exact Int.ofNat_nonneg _
      · exact_mod_cast hr.1.1
    rw [tableToJSON, decodeEntries_cons, decodeEntry_pair, decUint64, if_pos hoff,
      decodeRef_arr, decodeStages_toJSON lib hl target hr.1.2 hm.1 hn.1,
      decodeEntries_toJSON lib hl rest hr.2 hm.2 hn.2]
    simp
end

theorem Unmarshal_Marshal {T : Type} (lib : Lib T) (hl : lib.Lawful) (r : Ref)
    (hr : stagesInRange r = true) (hm : stagesMapsInOrder r = true)
    (hn : stagesNoEmptyList r = true)
    (hd : (Ref.toJSON lib r).depth < maxNestingDepth) :
    Unmarshal lib (Marshal lib r) = .ok r := by
  unfold Unmarshal Marshal
  rw [hl.json _ hd]
  exact decodeStages_toJSON lib hl r hr hm hn

/-- With any lawful library, the Ref `[Stage{Any: AnySource{}}]` is written without its `any`
key and read back as a stage with nothing populated, which `Validate` rejects. -/
theorem DecodePEM_refEmptyAny {T : Type} (lib : Lib T) (hl : lib.Lawful) :
    DecodePEM lib (EncodePEM lib [] refEmptyAny) =
      .err (.msg "first ref element is not a Source") := by
  have hj : Ref.toJSON lib refEmptyAny =
      .arr [.obj [("AEAD", .null), ("Compress", .null)]] := rfl
  have hd : decodeRef lib (.arr [.obj [("AEAD", .null), ("Compress", .null)]]) =
      .ok [Stage.zero] := by
    have h1 := step_AEAD lib hl Stage.zero none
      ([("Compress", orNull CompressStage.toJSON none)] ++ []) rfl
    have h2 := step_Compress lib { Stage.zero with AEAD := none } none [] rfl
    show (match decodeStageFields lib Stage.zero
        ([("AEAD", orNull (AEADStage.toJSON lib) none)] ++
          ([("Compress", orNull CompressStage.toJSON none)] ++ [])) with
      | .ok s =>
        (match decodeStages lib [] with
         | .ok ss => Except.ok (s :: ss)
         | .error e => Except.error e)
      | .error e => Except.error e) = Except.ok [Stage.zero]
    rw [h1, h2]
    rfl
  have hdepth : (JSON.arr [.obj [("AEAD", .null), ("Compress", .null)]]).depth <
      maxNestingDepth := by decide
  simp only [EncodePEM, DecodePEM, List.nil_append, hl.pem, hl.gzip, Unmarshal, Marshal,
    hj, hl.json _ hdepth, hd]
  rfl

/-- C1, as stated, fails: the Ref `[Stage{Any: AnySource{}}]` passes `Validate`, and decoding
its encoding returns the error "first ref element is not a Source" and no Ref. -/
theorem DecodePEM_EncodePEM_refEmptyAny :
    Validate refEmptyAny = none ∧
      DecodePEM refLib (EncodePEM refLib [] refEmptyAny) =
        .err (.msg "first ref element is not a Source") :=
  ⟨rfl, rfl⟩

/-- C1, amended: for every Ref that passes `Validate`, whose strings are valid UTF-8, whose
JSON text nests its arrays and objects fewer than 10000 levels deep, and in which no stage,
at any depth, holds a non-nil `Any` or `Table` of length 0, `DecodePEM (EncodePEM nil r)`
returns no error and a Ref equal to `r`. The strings of a Ref are valid UTF-8 as values of
`String`; `stagesInRange` and `stagesMapsInOrder` say that `r` is a value of the Go type,
its integers in the range of `int` and `uint64` and each map kept in key order; the library
decoders read back what the encoders wrote. -/
theorem DecodePEM_EncodePEM {T : Type} (lib : Lib T) (hl : lib.Lawful) (r : Ref)
    (hv : Validate r = none) (hr : stagesInRange r = true)
    (hm : stagesMapsInOrder r = true) (hn : stagesNoEmptyList r = true)
    (hd : (Ref.toJSON lib r).depth < maxNestingDepth) :
    DecodePEM lib (EncodePEM lib [] r) = .ok r := by
  simp only [EncodePEM, DecodePEM, List.nil_append, hl.pem, hl.gzip,
    Unmarshal_Marshal lib hl r hr hm hn hd, hv]
  rfl

theorem DecodePEM_EncodePEM_witness :
    (Validate refTest = none ∧ stagesInRange refTest = true ∧
      stagesMapsInOrder refTest = true ∧ stagesNoEmptyList refTest = true ∧
      (Ref.toJSON refLib refTest).depth < maxNestingDepth ∧
      DecodePEM refLib (EncodePEM refLib [] refTest) = .ok refTest) ∧
    (Validate refNested = none ∧ stagesInRange refNested = true ∧
      stagesMapsInOrder refNested = true ∧ stagesNoEmptyList refNested = true ∧
      (Ref.toJSON refLib refNested).depth < maxNestingDepth ∧
      DecodePEM refLib (EncodePEM refLib [] refNested) = .ok refNested) :=
  ⟨⟨rfl, rfl, rfl, rfl, by decide,
      DecodePEM_EncodePEM refLib refLib_lawful refTest rfl rfl rfl rfl (by decide)⟩,
    ⟨rfl, rfl, rfl, rfl, by decide,
      DecodePEM_EncodePEM refLib refLib_lawful refNested rfl rfl rfl rfl (by decide)⟩⟩

/-! ### The resolver: hash -/

/-- `resolveHash` does not read the expected digest: two `HashCheck` stages with the same
algorithm resolve alike. -/
theorem resolveHash_ignores_Sum (r : Resolver) (x : Option Stream) (algo : String)
    (sum1 sum2 : Bytes) (w : World) :
    resolveHash r x ⟨algo, sum1⟩ w = resolveHash r x ⟨algo, sum2⟩ w := rfl

/-- With a registered hash whose `Write` succeeds, `resolveHash` releases the bytes it read,
whatever digest was expected. -/
theorem resolveHash_releases (r : Resolver) (x : Option Stream) (c : HashCheck) (h : Hash)
    (w w1 : World) (data : Bytes) (hreg : r.hashers c.Algo = some h)
    (hread : readAll x w = (.ok data, w1)) (hwrite : h.Write data = none) :
    resolveHash r x c w = (.ok (.nopCloser data), w1) := by
  simp only [resolveHash, hreg, hread, hwrite]

/-- C3: resolving `[HTTP, Hash{SHA256, sum}]` where `sum` is not the digest of the body
"abcd": no integrity-mismatch error, the call returns a stream that yields the body. -/
theorem Resolve_hash_mismatch :
    refEnv.sha256.Sum [97, 98, 99, 100] ≠ [0] ∧
      (NewResolver refEnv []).hashers Hash_SHA256 = some refEnv.sha256 ∧
      Resolve (NewResolver refEnv [])
          [Stage.ofHTTP "https://example.com/1234", Stage.ofHash Hash_SHA256 [0]] [] =
        (.ok (some (.nopCloser [97, 98, 99, 100])),
          [⟨[97, 98, 99, 100], 4, true, false⟩]) :=
  ⟨by decide, rfl, rfl⟩

/-! ### The resolver: slice -/

theorem wrapInt64_of_fits (v : Int) (h0 : 0 ≤ v) (h1 : v < 2 ^ 63) : wrapInt64 v = v := by
  unfold wrapInt64
  rw [Int.emod_eq_of_lt (by omega) (by omega)]
  omega

/-- C6: for `0 <= begin <= end <= len(data)`, resolving `Slice{begin, end}` over a stream
that holds `data` from its start yields a stream whose bytes are exactly `data[begin:end]`,
on the random-access path (a file: seek and limit) and on the buffered path (any other
stream: read all, slice) alike. -/
theorem resolveSlice_yields (r : Resolver) (c : SliceStage) (data : Bytes)
    (h0 : 0 ≤ c.Begin) (h1 : c.Begin ≤ c.End) (h2 : c.End ≤ data.length)
    (h3 : c.End < 2 ^ 63) :
    (∀ (w : World) (id : Nat), w[id]? = some ⟨data, 0, false, true⟩ →
      ∃ y w1 w2, resolveSlice r (some (.handle id)) c w = (.ok y, w1) ∧
        y.readAll w1 =
          (.ok ((data.drop c.Begin.toNat).take (c.End.toNat - c.Begin.toNat)), w2)) ∧
    (∀ (w w1 : World) (x : Stream), asReadSeekCloser (some x) w = none →
      readAll (some x) w = (.ok data, w1) →
      ∃ y, resolveSlice r (some x) c w = (.ok y, w1) ∧
        y.readAll w1 =
          (.ok ((data.drop c.Begin.toNat).take (c.End.toNat - c.Begin.toNat)), w1)) := by
  obtain ⟨b, e⟩ := c
  simp only at h0 h1 h2 h3
  have hnot : ¬ e < b := by omega
  constructor
  · intro w id hw
    have hid : id < w.length := by
      rcases Nat.lt_or_ge id w.length with h | h
      · exact h
      · rw [List.getElem?_eq_none h] at hw
        cases hw
    have hseek : seekHandle id b w = (none, w.set id ⟨data, b.toNat, false, true⟩) := by
      simp only [seekHandle, hw]
      have : ¬ ((0 : Nat) : Int) + b < 0 := by omega
      simp [this, h0]
    have hget : (w.set id ⟨data, b.toNat, false, true⟩)[id]? =
        some ⟨data, b.toNat, false, true⟩ := by
      simp [List.getElem?_set, hid]
    have hwrap : wrapInt64 (e - b) = e - b := wrapInt64_of_fits _ (by omega) (by omega)
    have hres : resolveSlice r (some (.handle id)) ⟨b, e⟩ w =
        (.ok (.closer (.limit id (e - b)) (some (.handle id))),
          w.set id ⟨data, b.toNat, false, true⟩) := by
      simp only [resolveSlice, if_neg hnot, asReadSeekCloser, hw, if_true, hseek, hwrap]
    refine ⟨_, _, ((Stream.closer (.limit id (e - b)) (some (.handle id))).readAll
      (w.set id ⟨data, b.toNat, false, true⟩)).2, hres, ?_⟩
    rw [Prod.ext_iff]
    refine ⟨?_, rfl⟩
    by_cases hN : e - b ≤ 0
    · have hlen : e.toNat - b.toNat = 0 := by omega
      simp only [Stream.readAll, Reader.readAll, if_pos hN, hlen, List.take_zero]
    · have hlen : (e - b).toNat = e.toNat - b.toNat := by omega
      simp only [Stream.readAll, Reader.readAll, if_neg hN, readHandle, hget, hlen]
      rfl
  · intro w w1 x hx hread
    have hlen : ¬ ((data.length : Int) < e) := by omega
    have hb : ¬ b < 0 := by omega
    refine ⟨.nopCloser (sliceOf data b e), ?_, rfl⟩
    simp only [resolveSlice, if_neg hnot, hx, hread, if_neg hlen, if_neg hb]

/-- `Slice(1, 3)` on "abcd", from a file and from a buffer, yields "bc". -/
theorem resolveSlice_yields_witness :
    (∃ y w1 w2,
        resolveSlice fileResolver (some (.handle 0)) ⟨1, 3⟩
            [⟨[97, 98, 99, 100], 0, false, true⟩] = (.ok y, w1) ∧
          y.readAll w1 = (.ok [98, 99], w2)) ∧
      ∃ y, resolveSlice fileResolver (some (.nopCloser [97, 98, 99, 100])) ⟨1, 3⟩ [] =
          (.ok y, []) ∧
        y.readAll [] = (.ok [98, 99], []) :=
  have h := resolveSlice_yields fileResolver ⟨1, 3⟩ [97, 98, 99, 100]
    (by decide) (by decide) (by decide) (by decide)
  ⟨h.1 [⟨[97, 98, 99, 100], 0, false, true⟩] 0 rfl,
    h.2 [] [] (.nopCloser [97, 98, 99, 100]) rfl rfl⟩

/-- On the buffered path a `Slice` whose `End` is past the data fails with the
out-of-bounds error. -/
theorem resolveSlice_buffered_out_of_bounds (r : Resolver) (c : SliceStage) (data : Bytes)
    (w w1 : World) (x : Stream) (h1 : c.Begin ≤ c.End) (h2 : (data.length : Int) < c.End)
    (hx : asReadSeekCloser (some x) w = none) (hread : readAll (some x) w = (.ok data, w1)) :
    resolveSlice r (some x) c w = (.err (.msg "webref: slice is out of bounds"), w1) := by
  have hnot : ¬ c.End < c.Begin := by omega
  simp only [resolveSlice, if_neg hnot, hx, hread, if_pos h2]

/-- C7: `[File, Slice(0, 5)]` over a file of 3 bytes: the random-access path has no bounds
check, the call returns a stream, and the stream yields the 3 bytes; the same slice of the
same bytes on the buffered path fails with the out-of-bounds error. -/
theorem Resolve_file_slice_out_of_bounds :
    Resolve fileResolver [Stage.ofFile "f", Stage.ofSlice 0 5] [] =
        (.ok (some (.closer (.limit 0 5) (some (.handle 0)))),
          [⟨[1, 2, 3], 0, false, true⟩]) ∧
      (Stream.closer (.limit 0 5) (some (.handle 0))).readAll
          [⟨[1, 2, 3], 0, false, true⟩] =
        (.ok [1, 2, 3], [⟨[1, 2, 3], 3, false, true⟩]) ∧
      resolveSlice fileResolver (some (.nopCloser [1, 2, 3])) ⟨0, 5⟩ [] =
        (.err (.msg "webref: slice is out of bounds"), []) :=
  ⟨rfl, rfl, rfl⟩

/-! ### The resolver: registry -/

theorem resolveCipher_unsupported (r : Resolver) (x : Option Stream) (c : CipherStage)
    (w : World) (h : r.decryptors c.Algo = none) :
    resolveCipher r x c w = (.err (.AlgoUnsupported c.Algo "cipher"), w) := by
  simp only [resolveCipher, h]

theorem resolveAEAD_unsupported (r : Resolver) (x : Option Stream) (c : AEADStage)
    (w : World) (h : r.aeads c.Algo = none) :
    resolveAEAD r x c w = (.err (.AlgoUnsupported c.Algo "AEAD"), w) := by
  simp only [resolveAEAD, h]

theorem resolveHash_unsupported (r : Resolver) (x : Option Stream) (c : HashCheck)
    (w : World) (h : r.hashers c.Algo = none) :
    resolveHash r x c w = (.err (.AlgoUnsupported c.Algo "hash"), w) := by
  simp only [resolveHash, h]

/-- C8: a `Compress` stage with an unregistered algorithm (every one, for `NewResolver()`)
fails with `ErrAlgoUnsupported` whose `Type` is "hash", not the stage's own category; the
world, and so the upstream stream, is left as it was. -/
theorem resolveCompress_unsupported (env : Env) (x : Option Stream) (cs : CompressStage)
    (w : World) :
    resolveCompress (NewResolver env []) x cs w =
        (.err (.AlgoUnsupported cs.Algo "hash"), w) ∧
      Error.AlgoUnsupported cs.Algo "hash" ≠ Error.AlgoUnsupported cs.Algo "compress" := by
  refine ⟨rfl, ?_⟩
  intro h
  injection h with _ h2
  exact absurd h2 (by decide)

/-- `NewResolver` returns the same resolver whatever options it is given. -/
theorem NewResolver_ignores_opts (env : Env) (opts : List ResolverOption) :
    NewResolver env opts = NewResolver env [] := rfl

/-- An option applied to a resolver registers its provider and keeps the others. -/
theorem WithCompression_registers (r : Resolver) (a : String) (fn : Decompressor) :
    (WithCompression a fn r).decompressors a = some fn ∧
      (∀ b, b ≠ a → (WithCompression a fn r).decompressors b = r.decompressors b) ∧
      (WithCompression a fn r).hashers = r.hashers ∧
      (WithCompression a fn r).decryptors = r.decryptors ∧
      (WithCompression a fn r).aeads = r.aeads := by
  refine ⟨by simp [WithCompression, mapSet], ?_, rfl, rfl, rfl⟩
  intro b hb
  simp [WithCompression, mapSet, hb]

/-- C9: the resolver returned by `NewResolver(WithCompression(a, fn))` has nothing
registered under `a`: a `Compress` stage naming `a` fails as unsupported. Applied to a
resolver, the same option does register `fn`, and the stage resolves through it. -/
theorem NewResolver_WithCompression (env : Env) (a : String) (fn : Decompressor)
    (x : Option Stream) (w : World) :
    (NewResolver env [WithCompression a fn]).decompressors a = none ∧
      resolveCompress (NewResolver env [WithCompression a fn]) x ⟨a⟩ w =
        (.err (.AlgoUnsupported a "hash"), w) ∧
      resolveCompress (WithCompression a fn (NewResolver env [])) x ⟨a⟩ w = fn x w := by
  refine ⟨rfl, rfl, ?_⟩
  simp [resolveCompress, WithCompression, mapSet]

/-! ### The resolver: alternatives -/

/-- `resolveAny` itself does what the claim says on `[A, B]` with `A` failing and `B`
succeeding: from either starting index it returns the stream of `B`. -/
theorem resolveAny_second (n : Nat) (hn : n < 2) :
    ∃ w, resolveAny (NewResolver refEnv [])
        [[Stage.ofFile "a"], [Stage.ofHTTP "https://example.com/1234"]] n [] =
      (.ok (some (.handle 0)), w) ∧ (Stream.handle 0).readAll w = 
        (.ok [97, 98, 99, 100], [⟨[97, 98, 99, 100], 4, false, false⟩]) := by
  interval_cases n
  · exact ⟨_, rfl, rfl⟩
  · exact ⟨_, rfl, rfl⟩

/-- C10: `Resolve` on a Ref whose source stage is `Any`: the `Any` case of the switch is
`panic(s.Any)`; no alternative is tried and the call panics, whatever the resolver, the
alternatives, the later stages and the world. -/
theorem Resolve_any_panics (r : Resolver) (alts : List Ref) (rest : List Stage) (w : World) :
    Resolve r (Stage.ofAny alts :: rest) w = (.panic (.explicit "s.Any"), w) := rfl


/-! ### Decoding -/

/-- Without an armored block in the input, `pem.Decode` returns a nil block and `DecodePEM`
panics on `block.Type`. -/
theorem DecodePEM_no_block {T : Type} (lib : Lib T) (x : List T)
    (h : lib.pemDecode x = none) : DecodePEM lib x = .panic .nilDereference := by
  simp only [DecodePEM, h]

/-- A block with a type label other than WEBREF is a decode error. -/
theorem DecodePEM_wrong_type {T : Type} (lib : Lib T) (x : List T) (t : String)
    (b : List T) (h : lib.pemDecode x = some (t, b)) (ht : t ≠ "WEBREF") :
    DecodePEM lib x = .err (.msg ("webref: decoding pem, wrong type " ++ t.quote)) := by
  simp [DecodePEM, h, ht]

/-- A WEBREF block whose payload is not a gzip stream, or whose content is not a JSON
record of a Ref, is a decode error. -/
theorem DecodePEM_bad_payload {T : Type} (lib : Lib T) (x : List T) (b : List T)
    (h : lib.pemDecode x = some ("WEBREF", b)) :
    (∀ e, lib.gzipRead b = .error e → DecodePEM lib x = .err e) ∧
      (∀ data e, lib.gzipRead b = .ok data → Unmarshal lib data = .error e →
        DecodePEM lib x = .err e) := by
  constructor
  · intro e he
    simp [DecodePEM, h, he]
  · intro data e hd he
    simp [DecodePEM, h, hd, he]

/-- C12: on an input with no armored block `DecodePEM` does not return a decode error: it
panics with a nil dereference. The two other kinds of ill-formed input (a block of another
type, a WEBREF block with a payload that is not compressed data) do return an error. -/
theorem DecodePEM_empty_input :
    DecodePEM refLib [] = .panic .nilDereference ∧
      DecodePEM refLib [.pem "CERTIFICATE" []] =
        .err (.msg ("webref: decoding pem, wrong type " ++ "CERTIFICATE".quote)) ∧
      DecodePEM refLib [.pem "WEBREF" []] = .err (.lib "gzip: invalid header") :=
  ⟨rfl, rfl, rfl⟩

/-- C13: whenever `DecodePEM` returns a Ref, that Ref passes `Validate`; and a WEBREF block
whose payload decodes to a Ref that `Validate` rejects (empty, starting with a transform, or
with a source after its first stage) is reported with the error of `Validate`. -/
theorem DecodePEM_validates {T : Type} (lib : Lib T) (x : List T) :
    (∀ r, DecodePEM lib x = .ok r → Validate r = none) ∧
      (∀ b data r e, lib.pemDecode x = some ("WEBREF", b) → lib.gzipRead b = .ok data →
        Unmarshal lib data = .ok r → Validate r = some e → DecodePEM lib x = .err e) := by
  constructor
  · intro r h
    unfold DecodePEM at h
    split at h
    · cases h
    · split at h
      · cases h
      · split at h
        · cases h
        · split at h
          · cases h
          · split at h
            · cases h
            · rename_i hv
              cases h
              exact hv
  · intro b data r e hp hg hu hv
    simp [DecodePEM, hp, hg, hu, hv]

/-- The encoding of the Ref of `TestEncodeDecode` decodes to a Ref, which passes `Validate`;
the encoding of `[Stage{Any: AnySource{}}]` decodes to a record that does not, and is
reported as an error. -/
theorem DecodePEM_validates_witness :
    DecodePEM refLib (EncodePEM refLib [] refTest) = .ok refTest ∧
      Validate refTest = none ∧
      DecodePEM refLib (EncodePEM refLib [] refEmptyAny) =
        .err (.msg "first ref element is not a Source") :=
  ⟨rfl, (DecodePEM_validates refLib (EncodePEM refLib [] refTest)).1 refTest rfl,
    (DecodePEM_validates refLib (EncodePEM refLib [] refEmptyAny)).2 _ _ [Stage.zero] _
      rfl rfl rfl rfl⟩

/-! ### The resolver: the loop -/

theorem Resolve.loop_append (r : Resolver) (pre post : List Stage) (rc : Option Stream)
    (w : World) :
    Resolve.loop r (pre ++ post) rc w =
      match Resolve.loop r pre rc w with
      | (.ok rc1, w1) => Resolve.loop r post rc1 w1
      | (.err e, w1) => (.err e, w1)
      | (.panic p, w1) => (.panic p, w1) := by
  induction pre generalizing rc w with
  | nil => rfl
  | cons s rest ih =>
    simp only [List.cons_append, Resolve.loop]
    rcases hst : Resolve.stage r s rc w with ⟨o, w1⟩
    cases o with
    | ok rc1 => exact ih rc1 w1
    | err e => rfl
    | panic p => rfl

theorem Resolve_eq_loop (r : Resolver) (x : Ref) (w : World) (h : x ≠ []) :
    Resolve r x w = Resolve.loop r x none w := by
  unfold Resolve
  rw [if_neg]
  intro h0
  exact h (List.length_eq_zero.1 h0)

/-- With no stream set, `AES256CTRDecrypt` wraps the nil stream and returns no error. -/
theorem AES256CTRDecrypt_nil (env : Env) (key nonce : Bytes) (w : World)
    (newCTR : Bytes → Outcome (Bytes → Bytes)) (S : Bytes → Bytes)
    (hk : env.aesCTR key = .ok newCTR) (hn : newCTR nonce = .ok S) :
    AES256CTRDecrypt env none key nonce w = (.ok (.closer (.stream S none) none), w) := by
  simp only [AES256CTRDecrypt, hk, hn]

/-- C16: `Resolve` on a Ref whose first stage is a transform does not always return an
error. `[Cipher{AES256_CTR}]` with a valid key and IV is resolved to a stream, wrapped
around the nil stream, with a nil error; `[Cipher{CHACHA20}]` with a valid key and nonce,
`[Hash{SHA256}]` and `[Slice(0, 1)]` panic on the nil stream. -/
theorem Resolve_transform_first :
    Resolve (NewResolver refEnv []) [Stage.ofCipher Cipher_AES256_CTR zeroKey zeroIV] [] =
        (.ok (some (.closer (.stream refKeyStream none) none)), []) ∧
      Resolve (NewResolver refEnv []) [Stage.ofCipher Cipher_CHACHA20 zeroKey zeroNonce] [] =
        (.panic .nilDereference, []) ∧
      Resolve (NewResolver refEnv []) [Stage.ofHash Hash_SHA256 []] [] =
        (.panic .nilDereference, []) ∧
      Resolve (NewResolver refEnv []) [Stage.ofSlice 0 1] [] =
        (.panic .nilDereference, []) :=
  ⟨rfl, rfl, rfl, rfl⟩

/-! ### The resolver: closing -/

/-- The stream `AES256CTRDecrypt` returns has no `close`: closing it panics and closes
nothing. -/
theorem AES256CTRDecrypt_close (env : Env) (x : Option Stream) (key nonce : Bytes)
    (w w1 w2 : World) (s : Stream)
    (h : AES256CTRDecrypt env x key nonce w = (.ok s, w1)) :
    s.close w2 = (.panic .nilDereference, w2) := by
  unfold AES256CTRDecrypt at h
  split at h
  · cases h
  · split at h
    · cases h
      rfl
    · cases h
    · cases h

/-- The stream `ChaCha20Decrypt` returns closes the stream it wraps. -/
theorem ChaCha20Decrypt_close (env : Env) (x : Option Stream) (key nonce : Bytes)
    (w w1 w2 : World) (s : Stream)
    (h : ChaCha20Decrypt env x key nonce w = (.ok s, w1)) :
    ∃ up, x = some up ∧ s.close w2 = up.close w2 := by
  unfold ChaCha20Decrypt at h
  split at h
  · cases h
  · split at h
    · cases h
    · cases h
      exact ⟨_, rfl, rfl⟩

/-- C17: `[HTTP, Cipher{AES256_CTR}]` is resolved successfully, but closing the returned
stream panics (its `close` is nil) and the body acquired by the first stage stays open. With
CHACHA20 in its place, closing succeeds and closes the body. -/
theorem Resolve_AES_close :
    Resolve (NewResolver refEnv [])
        [Stage.ofHTTP "https://example.com/1234",
          Stage.ofCipher Cipher_AES256_CTR zeroKey zeroIV] [] =
        (.ok (some (.closer (.stream refKeyStream (some (.handle 0))) none)),
          [⟨abcd, 0, false, false⟩]) ∧
      (Stream.closer (.stream refKeyStream (some (.handle 0))) none).close
          [⟨abcd, 0, false, false⟩] =
        (.panic .nilDereference, [⟨abcd, 0, false, false⟩]) ∧
      Resolve (NewResolver refEnv [])
        [Stage.ofHTTP "https://example.com/1234",
          Stage.ofCipher Cipher_CHACHA20 zeroKey zeroNonce] [] =
        (.ok (some (.closer (.stream refKeyStream (some (.handle 0))) (some (.handle 0)))),
          [⟨abcd, 0, false, false⟩]) ∧
      (Stream.closer (.stream refKeyStream (some (.handle 0))) (some (.handle 0))).close
          [⟨abcd, 0, false, false⟩] =
        (.ok (), [⟨abcd, 0, true, false⟩]) :=
  ⟨rfl, rfl, rfl, rfl⟩

/-! ### The resolver: failure of a later stage -/

/-- C18: when a stage after the source fails, `Resolve` returns the error without closing
the stream set so far: after an unsupported cipher, a rejected key, or a `Slice` with
`end < begin`, the HTTP body acquired by the first stage is still open. (Only the
out-of-bounds `Slice` leaves it closed: `readAll` had closed it before the check.) -/
theorem Resolve_failure_leaves_open :
    Resolve (NewResolver refEnv [])
        [Stage.ofHTTP "https://example.com/1234", Stage.ofCipher "ROT13" [] []] [] =
        (.err (.AlgoUnsupported "ROT13" "cipher"), [⟨abcd, 0, false, false⟩]) ∧
      Resolve (NewResolver refEnv [])
        [Stage.ofHTTP "https://example.com/1234", Stage.ofCipher Cipher_CHACHA20 [] []] [] =
        (.err (.lib "chacha20: wrong key or nonce size"), [⟨abcd, 0, false, false⟩]) ∧
      Resolve (NewResolver refEnv [])
        [Stage.ofHTTP "https://example.com/1234", Stage.ofSlice 5 2] [] =
        (.err (.msg ("webref: slice end < begin. " ++ toString (2 : Int) ++ " < " ++
          toString (5 : Int))), [⟨abcd, 0, false, false⟩]) ∧
      Resolve (NewResolver refEnv [])
        [Stage.ofHTTP "https://example.com/1234", Stage.ofSlice 0 5] [] =
        (.err (.msg "webref: slice is out of bounds"), [⟨abcd, 4, true, false⟩]) :=
  ⟨rfl, rfl, rfl, rfl⟩

/-! ### The resolver: a second source -/

/-- `setSource` with a stream already set: that stream is closed and the error returned,
unless `Close` panics. -/
theorem setSource_some (s rc2 : Stream) (w : World)
    (hclose : ∀ p, (s.close w).1 ≠ .panic p) :
    setSource (some s) rc2 w = (.err (.msg "source found after first stage"), (s.close w).2) := by
  unfold setSource
  rcases hc : s.close w with ⟨o, w1⟩
  rw [hc] at hclose
  cases o with
  | ok u => simp only [hc]
  | err e => simp only [hc]
  | panic p => exact absurd rfl (hclose p)

/-- C11, as stated, fails: in `[HTTP, File]` the first stage is acquired and a source stage
follows, but the file opener is called before the order is checked; its error is what
`Resolve` returns, and the body of the first stage is left open. -/
theorem Resolve_second_source_unacquired :
    Resolve (NewResolver refEnv [])
        [Stage.ofHTTP "https://example.com/1234", Stage.ofFile "a.txt"] [] =
      (.err (.msg "webref: resolver does not have file opener configured"),
        [⟨abcd, 0, false, false⟩]) :=
  rfl

/-- C11, amended: when the stages before leave a stream `s` set and the next stage is a
`File` or `HTTP` source whose own acquisition succeeds, `Resolve` fails with "source found
after first stage", and `Close` has been called on `s` before it returns: the world it
leaves is the one `s.Close()` leaves, the new resource included. (Nothing is said of a
`Close` that panics.) -/
theorem Resolve_second_source (r : Resolver) (pre rest : List Stage) (s2 : Stage)
    (s : Stream) (w w1 : World) (data : Bytes) (seeker : Bool)
    (hpre : Resolve.loop r pre none w = (.ok (some s), w1))
    (hacq : (∃ f, s2.File = some f ∧ r.openFile f = .ok data ∧ seeker = true) ∨
      (∃ h, s2.File = none ∧ s2.HTTP = some h ∧ r.hc h.URL = .ok data ∧ seeker = false))
    (hclose : ∀ p, (s.close (w1 ++ [⟨data, 0, false, seeker⟩])).1 ≠ .panic p) :
    Resolve r (pre ++ s2 :: rest) w =
      (.err (.msg "source found after first stage"),
        (s.close (w1 ++ [⟨data, 0, false, seeker⟩])).2) := by
  rw [Resolve_eq_loop r _ w (by simp), Resolve.loop_append, hpre]
  have hst : Resolve.stage r s2 (some s) w1 =
      (.err (.msg "source found after first stage"),
        (s.close (w1 ++ [⟨data, 0, false, seeker⟩])).2) := by
    rcases hacq with ⟨f, hf, ho, rfl⟩ | ⟨h, hf, hh, ho, rfl⟩
    · simp only [Resolve.stage, hf, ho, openHandle]
      exact setSource_some s _ _ hclose
    · simp only [Resolve.stage, hf, hh, ho, openHandle]
      exact setSource_some s _ _ hclose
  simp only [Resolve.loop, hst]

/-- `[HTTP, HTTP]`: the second body is acquired, the first one is closed, the error is
returned. -/
theorem Resolve_second_source_witness :
    Resolve (NewResolver refEnv [])
        [Stage.ofHTTP "https://example.com/1", Stage.ofHTTP "https://example.com/2"] [] =
      (.err (.msg "source found after first stage"),
        [⟨abcd, 0, true, false⟩, ⟨abcd, 0, false, false⟩]) :=
  Resolve_second_source (NewResolver refEnv []) [Stage.ofHTTP "https://example.com/1"] []
    (Stage.ofHTTP "https://example.com/2") (.handle 0) [] [⟨abcd, 0, false, false⟩] abcd
    false rfl (Or.inr ⟨⟨"https://example.com/2", none⟩, rfl, rfl, rfl, rfl⟩)
    (by intro p h; cases h)


/-! ### The resolver: the order of the alternatives -/

theorem resolveAny_loop_eq (r : Resolver) (x : List Ref) (n : Nat) (idxs : List Nat)
    (alts : List Ref) (last : Option Error) (w : World)
    (h : idxs.map (fun i => x[(i + n) % x.length]?) = alts.map some) :
    resolveAny.loop r x n idxs last w = firstSuccess r alts last w := by
  induction idxs generalizing alts last w with
  | nil =>
    cases alts with
    | nil => rfl
    | cons a t => simp at h
  | cons i rest ih =>
    cases alts with
    | nil => simp at h
    | cons a t =>
      simp only [List.map_cons, List.cons.injEq] at h
      simp only [resolveAny.loop, h.1, firstSuccess]
      rcases Resolve r a w with ⟨o, w1⟩
      cases o with
      | ok rc => rfl
      | err e => exact ih t (some e) w1 h.2
      | panic p => rfl

theorem range_map_rotate (x : List Ref) (n : Nat) :
    (List.range x.length).map (fun i => x[(i + n) % x.length]?) = (x.rotate n).map some := by
  apply List.ext_getElem?
  intro i
  by_cases hi : i < x.length
  · have hlt : (i + n) % x.length < x.length := Nat.mod_lt _ (by omega)
    simp [List.getElem?_map, List.getElem?_range hi, List.getElem?_rotate hi,
      List.getElem?_eq_getElem hlt]
  · have h1 : x.length ≤ i := Nat.le_of_not_lt hi
    simp [List.getElem?_map, List.getElem?_eq_none, h1]

theorem resolveAny_eq_firstSuccess (r : Resolver) (x : List Ref) (n : Nat) (w : World)
    (hx : x ≠ []) : resolveAny r x n w = firstSuccess r (x.rotate n) none w := by
  unfold resolveAny
  rw [if_neg (fun h0 => hx (List.length_eq_zero.1 h0))]
  exact resolveAny_loop_eq r x n _ _ none w (range_map_rotate x n)

theorem firstSuccess_ok (r : Resolver) (pre : List Ref) (b : Ref) (post : List Ref)
    (last : Option Error) (rc : Option Stream) (w w1 w2 : World)
    (hf : FailInTurn r pre w w1) (hb : Resolve r b w1 = (.ok rc, w2)) :
    firstSuccess r (pre ++ b :: post) last w = (.ok rc, w2) := by
  induction pre generalizing last w with
  | nil =>
    simp only [FailInTurn] at hf
    subst hf
    simp only [List.nil_append, firstSuccess, hb]
  | cons a t ih =>
    obtain ⟨e, wm, ha, ht⟩ := hf
    simp only [List.cons_append, firstSuccess, ha]
    exact ih (some e) wm ht

theorem firstSuccess_err (r : Resolver) (pre : List Ref) (b : Ref)
    (last : Option Error) (e : Error) (w w1 w2 : World)
    (hf : FailInTurn r pre w w1) (hb : Resolve r b w1 = (.err e, w2)) :
    firstSuccess r (pre ++ [b]) last w = (.err e, w2) := by
  induction pre generalizing last w with
  | nil =>
    simp only [FailInTurn] at hf
    subst hf
    simp only [List.nil_append, firstSuccess, hb]
  | cons a t ih =>
    obtain ⟨e1, wm, ha, ht⟩ := hf
    simp only [List.cons_append, firstSuccess, ha]
    exact ih (some e1) wm ht

/-- C19: `resolveAny` with starting index `n` tries the alternatives in the circular order
`x[n], x[n+1], ..` (the list `x.rotate n`). If those before `b` fail in turn and `b`
resolves, it returns the stream of `b` and the world `b` left: none is tried after. If all
fail, it returns the error of the last one tried, which is `x[(n - 1) mod len]`. On the
empty list it returns an error and leaves the world as it was. -/
theorem resolveAny_circular (r : Resolver) (x : List Ref) (n : Nat) (w : World) :
    (x = [] → resolveAny r x n w = (.err (.msg "empty any"), w)) ∧
    (∀ i, i < x.length → (x.rotate n)[i]? = x[(i + n) % x.length]?) ∧
    (∀ pre b post rc w1 w2, x.rotate n = pre ++ b :: post → FailInTurn r pre w w1 →
      Resolve r b w1 = (.ok rc, w2) → resolveAny r x n w = (.ok rc, w2)) ∧
    (∀ pre b e w1 w2, x.rotate n = pre ++ [b] → FailInTurn r pre w w1 →
      Resolve r b w1 = (.err e, w2) →
      resolveAny r x n w = (.err e, w2) ∧
        x[(n + x.length - 1) % x.length]? = some b) := by
  refine ⟨?_, fun i hi => List.getElem?_rotate hi, ?_, ?_⟩
  · rintro rfl
    rfl
  · intro pre b post rc w1 w2 hrot hf hb
    have hx : x ≠ [] := by
      rintro rfl
      simp at hrot
    rw [resolveAny_eq_firstSuccess r x n w hx, hrot]
    exact firstSuccess_ok r pre b post none rc w w1 w2 hf hb
  · intro pre b e w1 w2 hrot hf hb
    have hx : x ≠ [] := by
      rintro rfl
      simp at hrot
    have hlen : x.length = pre.length + 1 := by
      have := congrArg List.length hrot
      simpa using this
    refine ⟨?_, ?_⟩
    · rw [resolveAny_eq_firstSuccess r x n w hx, hrot]
      exact firstSuccess_err r pre b none e w w1 w2 hf hb
    · have hlast : (x.rotate n)[pre.length]? = some b := by
        rw [hrot]
        simp
      rw [List.getElem?_rotate (by omega)] at hlast
      have hidx : n + x.length - 1 = pre.length + n := by omega
      rw [hidx]
      exact hlast

/-- `[A, B]` with `A` failing (no file opener) and `B` resolving, from index 0: `A` is
tried, then `B`, whose stream is returned. `[A, A]` from index 1: both fail, the error
returned is that of `x[0]`. -/
theorem resolveAny_circular_witness :
    resolveAny (NewResolver refEnv [])
        [[Stage.ofFile "a"], [Stage.ofHTTP "https://example.com/1234"]] 0 [] =
        (.ok (some (.handle 0)), [⟨abcd, 0, false, false⟩]) ∧
      (resolveAny (NewResolver refEnv []) [[Stage.ofFile "a"], [Stage.ofFile "b"]] 1 [] =
        (.err (.msg "webref: resolver does not have file opener configured"), []) ∧
        [[Stage.ofFile "a"], [Stage.ofFile "b"]][(1 + 2 - 1) % 2]? =
          some [Stage.ofFile "a"]) :=
  ⟨(resolveAny_circular (NewResolver refEnv [])
      [[Stage.ofFile "a"], [Stage.ofHTTP "https://example.com/1234"]] 0 []).2.2.1
      [[Stage.ofFile "a"]] [Stage.ofHTTP "https://example.com/1234"] [] _ [] _ rfl
      ⟨_, _, rfl, rfl⟩ rfl,
    (resolveAny_circular (NewResolver refEnv [])
      [[Stage.ofFile "a"], [Stage.ofFile "b"]] 1 []).2.2.2
      [[Stage.ofFile "b"]] [Stage.ofFile "a"] _ [] [] rfl ⟨_, _, rfl, rfl⟩ rfl⟩


/-! ### The resolver: panics -/

theorem readHandle_no_panic (id : Nat) (n : Option Nat) (w : World) (p : Panic) :
    (readHandle id n w).1 ≠ .panic p := by
  unfold readHandle
  split
  · simp
  · split <;> simp

theorem closeHandle_no_panic (id : Nat) (w : World) (p : Panic) :
    (closeHandle id w).1 ≠ .panic p := by
  unfold closeHandle
  split
  · simp
  · split <;> simp

mutual
theorem Stream.readAll_never_panics : (s : Stream) → s.sound = true → ∀ (w : World) (p : Panic),
    (s.readAll w).1 ≠ .panic p
  | .handle id, _, w, p => readHandle_no_panic id none w p
  | .nopCloser _, _, _, _ => by simp [Stream.readAll]
  | .closer rd (some x), h, w, p => by
    simp only [Stream.sound, Bool.and_eq_true] at h
    simp only [Stream.readAll]
    exact Reader.readAll_no_panic rd h.1 w p
  | .closer _ none, h, _, _ => by simp [Stream.sound] at h
theorem Reader.readAll_no_panic : (rd : Reader) → rd.sound = true →
    ∀ (w : World) (p : Panic), (rd.readAll w).1 ≠ .panic p
  | .stream S (some R), h, w, p => by
    simp only [Reader.sound] at h
    have ih := Stream.readAll_never_panics R h w
    simp only [Reader.readAll]
    rcases hR : Stream.readAll R w with ⟨o, w1⟩
    rw [hR] at ih
    cases o with
    | ok b => simp
    | err e => simp
    | panic q => exact absurd rfl (ih q)
  | .stream _ none, h, _, _ => by simp [Reader.sound] at h
  | .limit rsc N, _, w, p => by
    simp only [Reader.readAll]
    split
    · simp
    · exact readHandle_no_panic rsc _ w p
end

theorem Stream.close_no_panic : (s : Stream) → s.sound = true → ∀ (w : World) (p : Panic),
    (s.close w).1 ≠ .panic p
  | .handle id, _, w, p => closeHandle_no_panic id w p
  | .nopCloser _, _, _, _ => by simp [Stream.close]
  | .closer rd (some x), h, w, p => by
    simp only [Stream.sound, Bool.and_eq_true] at h
    simp only [Stream.close]
    exact Stream.close_no_panic x h.2 w p
  | .closer _ none, h, _, _ => by simp [Stream.sound] at h

theorem readAll_sound (s : Stream) (w : World) (hs : s.sound = true) :
    (∃ data w1, readAll (some s) w = (.ok data, w1)) ∨
      ∃ e w1, readAll (some s) w = (.err e, w1) := by
  unfold readAll
  have h1 := Stream.readAll_never_panics s hs w
  rcases hr : s.readAll w with ⟨o, w1⟩
  rw [hr] at h1
  cases o with
  | panic q => exact absurd rfl (h1 q)
  | err e => exact Or.inr ⟨e, w1, by simp only [hr]⟩
  | ok data =>
    have h2 := Stream.close_no_panic s hs w1
    rcases hc : s.close w1 with ⟨o2, w2⟩
    rw [hc] at h2
    cases o2 with
    | panic q => exact absurd rfl (h2 q)
    | err e => exact Or.inr ⟨e, w2, by simp only [hr, hc]⟩
    | ok u => exact Or.inl ⟨data, w2, by simp only [hr, hc]⟩

theorem resolveCipher_sound (r : Resolver) (s : Stream) (c : CipherStage) (w : World)
    (hs : s.sound = true)
    (hg : ∀ dec, r.decryptors c.Algo = some dec → GoodDecryptor dec) :
    SoundOrError (stepResult (resolveCipher r (some s) c w)) := by
  cases hd : r.decryptors c.Algo with
  | none =>
    exact Or.inr ⟨.AlgoUnsupported c.Algo "cipher", w,
      by simp only [resolveCipher, hd, stepResult]⟩
  | some dec =>
    rcases hg dec hd s c.Key c.Nonce w hs with ⟨s1, w1, h1, hs1⟩ | ⟨e, w1, h1⟩
    · exact Or.inl ⟨s1, w1, by simp only [resolveCipher, hd, h1, stepResult], hs1⟩
    · exact Or.inr ⟨e, w1, by simp only [resolveCipher, hd, h1, stepResult]⟩

theorem resolveCompress_sound (r : Resolver) (s : Stream) (c : CompressStage) (w : World)
    (hs : s.sound = true)
    (hg : ∀ dec, r.decompressors c.Algo = some dec → GoodDecompressor dec) :
    SoundOrError (stepResult (resolveCompress r (some s) c w)) := by
  cases hd : r.decompressors c.Algo with
  | none =>
    exact Or.inr ⟨.AlgoUnsupported c.Algo "hash", w,
      by simp only [resolveCompress, hd, stepResult]⟩
  | some dec =>
    rcases hg dec hd s w hs with ⟨s1, w1, h1, hs1⟩ | ⟨e, w1, h1⟩
    · exact Or.inl ⟨s1, w1, by simp only [resolveCompress, hd, h1, stepResult], hs1⟩
    · exact Or.inr ⟨e, w1, by simp only [resolveCompress, hd, h1, stepResult]⟩

theorem resolveAEAD_sound (r : Resolver) (s : Stream) (c : AEADStage) (w : World)
    (hs : s.sound = true)
    (hg : ∀ mk, r.aeads c.Algo = some mk → GoodAEAD mk) :
    SoundOrError (stepResult (resolveAEAD r (some s) c w)) := by
  cases hd : r.aeads c.Algo with
  | none =>
    exact Or.inr ⟨.AlgoUnsupported c.Algo "AEAD", w,
      by simp only [resolveAEAD, hd, stepResult]⟩
  | some mk =>
    cases hk : mk c.Key with
    | error e => exact Or.inr ⟨e, w, by simp only [resolveAEAD, hd, hk, stepResult]⟩
    | ok a =>
      rcases readAll_sound s w hs with ⟨data, w1, h1⟩ | ⟨e, w1, h1⟩
      · have hopen := hg mk hd c.Key a hk data c.Nonce data []
        cases ho : a.Open data c.Nonce data [] with
        | panic q => exact absurd ho (hopen q)
        | err e =>
          exact Or.inr ⟨e, w1, by simp only [resolveAEAD, hd, hk, h1, ho, stepResult]⟩
        | ok d =>
          exact Or.inl ⟨.nopCloser d, w1,
            by simp only [resolveAEAD, hd, hk, h1, ho, stepResult], rfl⟩
      · exact Or.inr ⟨e, w1, by simp only [resolveAEAD, hd, hk, h1, stepResult]⟩

theorem resolveHash_sound (r : Resolver) (s : Stream) (c : HashCheck) (w : World)
    (hs : s.sound = true) :
    SoundOrError (stepResult (resolveHash r (some s) c w)) := by
  cases hd : r.hashers c.Algo with
  | none =>
    exact Or.inr ⟨.AlgoUnsupported c.Algo "hash", w,
      by simp only [resolveHash, hd, stepResult]⟩
  | some h =>
    rcases readAll_sound s w hs with ⟨data, w1, h1⟩ | ⟨e, w1, h1⟩
    · cases hw : h.Write data with
      | some e => exact Or.inr ⟨e, w1, by simp only [resolveHash, hd, h1, hw, stepResult]⟩
      | none =>
        exact Or.inl ⟨.nopCloser data, w1,
          by simp only [resolveHash, hd, h1, hw, stepResult], rfl⟩
    · exact Or.inr ⟨e, w1, by simp only [resolveHash, hd, h1, stepResult]⟩

theorem resolveSlice_sound (r : Resolver) (s : Stream) (c : SliceStage) (w : World)
    (hs : s.sound = true) (hb : 0 ≤ c.Begin) :
    SoundOrError (stepResult (resolveSlice r (some s) c w)) := by
  by_cases hlt : c.End < c.Begin
  · exact Or.inr ⟨.msg ("webref: slice end < begin. " ++ toString c.End ++ " < " ++
      toString c.Begin), w, by simp only [resolveSlice, if_pos hlt, stepResult]⟩
  · cases ha : asReadSeekCloser (some s) w with
    | some rsc =>
      rcases hk : seekHandle rsc c.Begin w with ⟨oe, w1⟩
      cases oe with
      | some e =>
        exact Or.inr ⟨e, w1, by simp only [resolveSlice, if_neg hlt, ha, hk, stepResult]⟩
      | none =>
        exact Or.inl ⟨.closer (.limit rsc (wrapInt64 (c.End - c.Begin)))
          (some (.handle rsc)), w1,
          by simp only [resolveSlice, if_neg hlt, ha, hk, stepResult], rfl⟩
    | none =>
      rcases readAll_sound s w hs with ⟨data, w1, h1⟩ | ⟨e, w1, h1⟩
      · by_cases hoob : (data.length : Int) < c.End
        · exact Or.inr ⟨.msg "webref: slice is out of bounds", w1,
            by simp only [resolveSlice, if_neg hlt, ha, h1, if_pos hoob, stepResult]⟩
        · have hneg : ¬ c.Begin < 0 := by omega
          exact Or.inl ⟨.nopCloser (sliceOf data c.Begin c.End), w1,
            by simp only [resolveSlice, if_neg hlt, ha, h1, if_neg hoob, if_neg hneg,
              stepResult], rfl⟩
      · exact Or.inr ⟨e, w1, by simp only [resolveSlice, if_neg hlt, ha, h1, stepResult]⟩

/-- A stage that is no source, run on a sound stream: a sound stream or an error. -/
theorem Resolve.stage_transform_sound (r : Resolver) (st : Stage) (s : Stream) (w : World)
    (hns : st.IsSource = false) (ht : st.tame r) (hs : s.sound = true) :
    SoundOrError (Resolve.stage r st (some s) w) := by
  obtain ⟨File, HTTP, IPFS, Cipher, AEAD, Compress, Slice, Hash, Any, Table⟩ := st
  obtain ⟨hsl, hci, hae, hco⟩ := ht
  simp only at hsl hci hae hco
  cases File with
  | some f => simp [Stage.IsSource] at hns
  | none =>
  cases HTTP with
  | some h => simp [Stage.IsSource] at hns
  | none =>
  cases IPFS with
  | some i => simp [Stage.IsSource] at hns
  | none =>
  cases Any with
  | some a => simp [Stage.IsSource] at hns
  | none =>
  cases Table with
  | some t => simp [Stage.IsSource] at hns
  | none =>
  cases Cipher with
  | some c => exact resolveCipher_sound r s c w hs (fun dec hd => hci c dec rfl hd)
  | none =>
  cases AEAD with
  | some c => exact resolveAEAD_sound r s c w hs (fun mk hd => hae c mk rfl hd)
  | none =>
  cases Hash with
  | some c => exact resolveHash_sound r s c w hs
  | none =>
  cases Compress with
  | some c => exact resolveCompress_sound r s c w hs (fun dec hd => hco c dec rfl hd)
  | none =>
  cases Slice with
  | some c => exact resolveSlice_sound r s c w hs (hsl c rfl)
  | none => exact Or.inr ⟨.EmptyStage, w, rfl⟩

/-- A `File` or `HTTP` stage run with no stream set: the resource it opens, or the error
of the capability. -/
theorem Resolve.stage_source_sound (r : Resolver) (st : Stage) (w : World)
    (hsrc : st.File ≠ none ∨ st.HTTP ≠ none) :
    SoundOrError (Resolve.stage r st none w) := by
  obtain ⟨File, HTTP, IPFS, Cipher, AEAD, Compress, Slice, Hash, Any, Table⟩ := st
  simp only at hsrc
  cases File with
  | some f =>
    cases ho : r.openFile f with
    | error e => exact Or.inr ⟨e, w, by simp only [Resolve.stage, ho]⟩
    | ok data =>
      exact Or.inl ⟨.handle w.length, w ++ [⟨data, 0, false, true⟩],
        by simp only [Resolve.stage, ho, openHandle, setSource], rfl⟩
  | none =>
    cases HTTP with
    | none => simp at hsrc
    | some h =>
      cases ho : r.hc h.URL with
      | error e => exact Or.inr ⟨e, w, by simp only [Resolve.stage, ho]⟩
      | ok data =>
        exact Or.inl ⟨.handle w.length, w ++ [⟨data, 0, false, false⟩],
          by simp only [Resolve.stage, ho, openHandle, setSource], rfl⟩

theorem Resolve.loop_sound (r : Resolver) (rest : List Stage) (s : Stream) (w : World)
    (hns : ∀ st ∈ rest, st.IsSource = false) (ht : ∀ st ∈ rest, st.tame r)
    (hs : s.sound = true) :
    SoundOrError (Resolve.loop r rest (some s) w) := by
  induction rest generalizing s w with
  | nil => exact Or.inl ⟨s, w, rfl, hs⟩
  | cons st tl ih =>
    have h1 := Resolve.stage_transform_sound r st s w (hns st (List.mem_cons_self _ _))
      (ht st (List.mem_cons_self _ _)) hs
    rcases h1 with ⟨s1, w1, hst, hs1⟩ | ⟨e, w1, hst⟩
    · simp only [Resolve.loop, hst]
      exact ih s1 w1 (fun x hx => hns x (List.mem_cons_of_mem _ hx))
        (fun x hx => ht x (List.mem_cons_of_mem _ hx)) hs1
    · exact Or.inr ⟨e, w1, by simp only [Resolve.loop, hst]⟩

theorem Validate_tail_none (l : List Stage) (i : Nat) (h : Validate.tail l i = none) :
    ∀ st ∈ l, st.IsSource = false := by
  induction l generalizing i with
  | nil => simp
  | cons a tl ih =>
    unfold Validate.tail at h
    by_cases ha : a.IsSource = true
    · simp [ha] at h
    · simp only [ha, Bool.false_eq_true, if_false] at h
      intro st hst
      rcases List.mem_cons.1 hst with rfl | hmem
      · simpa using ha
      · exact ih (i + 1) h st hmem

/-- `ChaCha20Decrypt` is a good decryptor: the stream it returns wraps the one it was given
and closes it. -/
theorem ChaCha20Decrypt_good (env : Env) : GoodDecryptor (ChaCha20Decrypt env) := by
  intro s key nonce w hs
  cases hc : env.chacha20 key nonce with
  | error e => exact Or.inr ⟨e, w, by simp only [ChaCha20Decrypt, hc]⟩
  | ok ciph =>
    exact Or.inl ⟨.closer (.stream ciph (some s)) (some s), w,
      by simp only [ChaCha20Decrypt, hc],
      by simp only [Stream.sound, Reader.sound, hs, Bool.and_self]⟩

/-- C20, as stated, fails: `[IPFS]` passes `Validate`, and `Resolve` runs into
`panic(s.IPFS)`. -/
theorem Resolve_IPFS_panics :
    Validate [Stage.ofIPFS "Qm"] = none ∧
      Resolve (NewResolver refEnv []) [Stage.ofIPFS "Qm"] [] =
        (.panic (.explicit "s.IPFS"), []) :=
  ⟨rfl, rfl⟩

/-- C20, amended: for every Ref that passes `Validate` and whose source stage is `File` or
`HTTP`, whatever the file opener and the HTTP client return, `Resolve` returns a stream or
an error and does not panic, when no `Slice` stage has a negative `Begin` and the providers
registered under the algorithms of its `Cipher`, `AEAD` and `Compress` stages are good ones
(they do not panic and return streams that read and close without a panic). -/
theorem Resolve_total (r : Resolver) (x : Ref) (w : World) (hv : Validate x = none)
    (hsrc : ∀ s0, x[0]? = some s0 → s0.File ≠ none ∨ s0.HTTP ≠ none)
    (ht : ∀ st ∈ x, st.tame r) :
    (∃ s w1, Resolve r x w = (.ok (some s), w1)) ∨ ∃ e w1, Resolve r x w = (.err e, w1) := by
  cases x with
  | nil => simp [Validate] at hv
  | cons s0 rest =>
    unfold Validate at hv
    by_cases h0 : s0.IsSource = true
    · simp only [h0, Bool.not_true, Bool.false_eq_true, if_false] at hv
      have hns := Validate_tail_none rest 0 hv
      rw [Resolve_eq_loop r _ w (by simp)]
      have h1 := Resolve.stage_source_sound r s0 w (hsrc s0 (by simp))
      rcases h1 with ⟨s1, w1, hst, hs1⟩ | ⟨e, w1, hst⟩
      · simp only [Resolve.loop, hst]
        have h2 := Resolve.loop_sound r rest s1 w1 hns
          (fun st hst => ht st (List.mem_cons_of_mem _ hst)) hs1
        rcases h2 with ⟨s2, w2, hl, _⟩ | ⟨e, w2, hl⟩
        · exact Or.inl ⟨s2, w2, hl⟩
        · exact Or.inr ⟨e, w2, hl⟩
      · exact Or.inr ⟨e, w1, by simp only [Resolve.loop, hst]⟩
    · simp [h0] at hv

/-- The Ref `[File, Cipher{CHACHA20}, Slice(0, 2), Hash{SHA256}]` on a resolver with a file
opener. -/
theorem Resolve_total_witness :
    ((∃ s w1, Resolve fileResolver
        [Stage.ofFile "f", Stage.ofCipher Cipher_CHACHA20 zeroKey zeroNonce,
          Stage.ofSlice 0 2, Stage.ofHash Hash_SHA256 []] [] = (.ok (some s), w1)) ∨
      ∃ e w1, Resolve fileResolver
        [Stage.ofFile "f", Stage.ofCipher Cipher_CHACHA20 zeroKey zeroNonce,
          Stage.ofSlice 0 2, Stage.ofHash Hash_SHA256 []] [] = (.err e, w1)) ∧
      Resolve fileResolver
        [Stage.ofFile "f", Stage.ofCipher Cipher_CHACHA20 zeroKey zeroNonce,
          Stage.ofSlice 0 2, Stage.ofHash Hash_SHA256 []] [] =
        (.ok (some (.nopCloser [43, 40])), [⟨[1, 2, 3], 3, true, true⟩]) :=
  ⟨Resolve_total fileResolver _ [] rfl
    (by
      intro s0 h
      simp only [List.getElem?_cons_zero, Option.some.injEq] at h
      subst h
      exact Or.inl (by simp [Stage.ofFile]))
    (by
      intro st hst
      simp only [List.mem_cons, List.mem_singleton, List.not_mem_nil, or_false] at hst
      rcases hst with rfl | rfl | rfl | rfl
      · exact ⟨fun c h => by simp [Stage.ofFile, Stage.zero] at h,
          fun c dec h => by simp [Stage.ofFile, Stage.zero] at h,
          fun c mk h => by simp [Stage.ofFile, Stage.zero] at h,
          fun c dec h => by simp [Stage.ofFile, Stage.zero] at h⟩
      · refine ⟨fun c h => by simp [Stage.ofCipher, Stage.zero] at h, ?_,
          fun c mk h => by simp [Stage.ofCipher, Stage.zero] at h,
          fun c dec h => by simp [Stage.ofCipher, Stage.zero] at h⟩
        intro c dec hc hd
        simp only [Stage.ofCipher, Stage.zero, Option.some.injEq] at hc
        subst hc
        have : dec = ChaCha20Decrypt refEnv := by
          have h2 : fileResolver.decryptors Cipher_CHACHA20 = some (ChaCha20Decrypt refEnv) :=
            rfl
          rw [h2] at hd
          exact (Option.some.inj hd).symm
        rw [this]
        exact ChaCha20Decrypt_good refEnv
      · refine ⟨?_, fun c dec h => by simp [Stage.ofSlice, Stage.zero] at h,
          fun c mk h => by simp [Stage.ofSlice, Stage.zero] at h,
          fun c dec h => by simp [Stage.ofSlice, Stage.zero] at h⟩
        intro c hc
        simp only [Stage.ofSlice, Stage.zero, Option.some.injEq] at hc
        subst hc
        exact le_refl _
      · exact ⟨fun c h => by simp [Stage.ofHash, Stage.zero] at h,
          fun c dec h => by simp [Stage.ofHash, Stage.zero] at h,
          fun c mk h => by simp [Stage.ofHash, Stage.zero] at h,
          fun c dec h => by simp [Stage.ofHash, Stage.zero] at h⟩),
    rfl⟩

end Webref
